import Mathlib

/-!
# key_trainer.c : a shallow embedding

The alarm clock of `src/key_trainer.c`: a wall clock advanced by the main loop,
an alarm that is triggered when the clock reaches the alarm time, a three-note
disarm sequence recognised by a Goertzel filter bank, and a two-button
interrupt handler that cycles the mode or adjusts the selected time.

Conventions of the embedding.

* `absolute_time_t` (microseconds since boot, 64 bit) is a `Nat`;
  `absolute_time_diff_us` is the signed difference, an `Int`.
* C `int` is `Int`; the C remainder `%` is `Int.tmod` (truncation towards zero).
  Every `int` of the program stays far below 2^31 on reachable states.
* `float` arithmetic is exact arithmetic: the detection functions are written over
  an arbitrary ordered field `K` and run over `ℚ`; the statements about sinusoids
  read them over `ℝ`.  `cosf` comes from the C library and is a parameter of
  `goertzel`.
* The main loop is cut into its consecutive blocks; one iteration receives the
  value `now` read by `get_absolute_time` and the result `detected` of
  `detect_note` (consumed only when the alarm is active).
* The interrupt handler is a state transformer of its own, run between
  iterations.
* A read of `correct_sequence` outside its three cells has no defined result:
  the blocks that perform it return an `Option`.
* `update_display`, `main_audio` and the `sleep` calls write no variable of the
  program and are left out; the two LEDs are two booleans of the state.
-/

namespace KeyTrainer

/-! ## Constants -/

def BUTTON_PIN1 : Nat := 5
def BUTTON_PIN2 : Nat := 6

/-- Number of samples per detection cycle. -/
def NUM_SAMPLES : Nat := 200

/-- Samples per second. -/
def SAMPLE_RATE : ℚ := 2000

/-- Minimum power required to consider a note. -/
def NOISE_FLOOR : ℚ := 2

/-- The value of `M_PI` in `math.h`. -/
def M_PI : ℚ := 3.14159265358979323846

/-! ## Mode and time variables -/

inductive Mode where
  | MODE_NORMAL
  | MODE_SET_CLOCK
  | MODE_SET_ALARM
  deriving DecidableEq, Repr

/-- Integer value of an enumerator. -/
def Mode.toInt : Mode → Int
  | .MODE_NORMAL => 0
  | .MODE_SET_CLOCK => 1
  | .MODE_SET_ALARM => 2

/-- Conversion of an integer in 0..2 back to the enumeration. -/
def Mode.ofInt (i : Int) : Mode :=
  if i = 0 then .MODE_NORMAL else if i = 1 then .MODE_SET_CLOCK else .MODE_SET_ALARM

structure ClockTime where
  hour : Int
  min : Int
  sec : Int
  deriving DecidableEq, Repr

/-- The globals of the program, the local `last_update` of `main`, and the two LEDs. -/
structure State where
  mode : Mode
  currentTime : ClockTime
  alarmTime : ClockTime
  alarm_active : Bool
  alarm_activation_time : Nat
  current_sequence_index : Int
  last_press_time_button1 : Nat
  last_press_time_button2 : Nat
  last_update : Nat
  led_red : Bool
  led_green : Bool
  deriving DecidableEq, Repr

/-- The globals as initialised at their declarations; `t0` is the instant at which
`main` initialises `last_update`. -/
def init (t0 : Nat) : State where
  mode := .MODE_NORMAL
  currentTime := ⟨12, 0, 0⟩
  alarmTime := ⟨7, 0, 0⟩
  alarm_active := false
  alarm_activation_time := 0
  current_sequence_index := 0
  last_press_time_button1 := 0
  last_press_time_button2 := 0
  last_update := t0
  led_red := false
  led_green := false

/-- Signed number of microseconds from `t_from` to `t_to`. -/
def absolute_time_diff_us (t_from t_to : Nat) : Int := (t_to : Int) - (t_from : Int)

/-- Milliseconds since boot, truncated to 32 bits. -/
def to_ms_since_boot (t : Nat) : Nat := (t / 1000) % 2 ^ 32

/-! ## Disarm sequence -/

def SEQUENCE_LENGTH : Int := 3

def correct_sequence : List Int := [0, 2, 4]

/-- Read of `correct_sequence[i]`; `none` outside the array. -/
def correct_sequence_at (i : Int) : Option Int :=
  if 0 ≤ i then correct_sequence.get? i.toNat else none

/-! ## Button interrupt handler -/

/-- The function `gpio_irq_handler`, with `now` the value of `get_absolute_time`. -/
def gpio_irq_handler (s : State) (gpio : Nat) (now : Nat) : State :=
  if gpio = BUTTON_PIN1 then
    let s1 :=
      if absolute_time_diff_us s.last_press_time_button2 now < 100000 then
        { s with mode := Mode.ofInt ((s.mode.toInt + 1).tmod 3) }
      else
        if s.mode = .MODE_SET_CLOCK then
          { s with currentTime := { s.currentTime with hour := (s.currentTime.hour + 1).tmod 24 } }
        else if s.mode = .MODE_SET_ALARM then
          { s with alarmTime := { s.alarmTime with hour := (s.alarmTime.hour + 1).tmod 24 } }
        else s
    { s1 with last_press_time_button1 := now }
  else if gpio = BUTTON_PIN2 then
    let s1 :=
      if absolute_time_diff_us s.last_press_time_button1 now < 100000 then
        { s with mode := Mode.ofInt ((s.mode.toInt + 1).tmod 3) }
      else
        if s.mode = .MODE_SET_CLOCK then
          { s with currentTime := { s.currentTime with min := (s.currentTime.min + 1).tmod 60 } }
        else if s.mode = .MODE_SET_ALARM then
          { s with alarmTime := { s.alarmTime with min := (s.alarmTime.min + 1).tmod 60 } }
        else s
    { s1 with last_press_time_button2 := now }
  else s

/-! ## Main loop, block by block -/

/-- Lines 295-307: update the clock every second, unless in clock-set mode. -/
def clock_update (s : State) (now : Nat) : State :=
  if s.mode ≠ .MODE_SET_CLOCK ∧ absolute_time_diff_us s.last_update now ≥ 1000000 then
    let s1 := { s with last_update := now }
    let s2 := { s1 with currentTime := { s1.currentTime with sec := s1.currentTime.sec + 1 } }
    if s2.currentTime.sec ≥ 60 then
      let s3 := { s2 with currentTime := { s2.currentTime with sec := 0 } }
      let s4 := { s3 with currentTime := { s3.currentTime with min := s3.currentTime.min + 1 } }
      if s4.currentTime.min ≥ 60 then
        let s5 := { s4 with currentTime := { s4.currentTime with min := 0 } }
        { s5 with currentTime :=
            { s5.currentTime with hour := (s5.currentTime.hour + 1).tmod 24 } }
      else s4
    else s2
  else s

/-- The condition of the `if` of lines 310-313. -/
def alarm_condition (s : State) : Bool :=
  !s.alarm_active &&
    decide (s.currentTime.hour = s.alarmTime.hour) &&
    decide (s.currentTime.min = s.alarmTime.min) &&
    decide (s.currentTime.sec = 0)

/-- Lines 309-317: trigger the alarm when the current time equals the alarm time. -/
def alarm_trigger (s : State) (now : Nat) : State :=
  if alarm_condition s then
    { s with alarm_active := true, current_sequence_index := 0, alarm_activation_time := now }
  else s

/-- Lines 323-328: the value written to the red LED while the alarm is active. -/
def blink (s : State) (now : Nat) : State :=
  let ms := to_ms_since_boot now
  if (ms / 500) % 2 = 0 then { s with led_red := true } else { s with led_red := false }

/-- Lines 332-346: compare the detected note with the next note of the sequence. -/
def sequence_match (s : State) (detected : Int) : Option State :=
  if detected ≠ -1 then
    match correct_sequence_at s.current_sequence_index with
    | none => none
    | some expected =>
      if detected = expected then
        let s1 := { s with current_sequence_index := s.current_sequence_index + 1 }
        if s1.current_sequence_index ≥ SEQUENCE_LENGTH then
          some { s1 with alarm_active := false, current_sequence_index := 0, led_red := false }
        else some s1
      else
        some { s with current_sequence_index := 0 }
  else some s

/-- Lines 319-350: the alarm branch, or the red LED switched off. -/
def alarm_phase (s : State) (now : Nat) (detected : Int) : Option State :=
  if s.alarm_active then
    sequence_match (blink s now) detected
  else
    some { s with led_red := false }

/-- Lines 352-356: the green LED indicates Normal mode. -/
def mode_led (s : State) : State :=
  if s.mode = .MODE_NORMAL then { s with led_green := true } else { s with led_green := false }

/-- One iteration of the `while (true)` loop of `main`. -/
def main_loop_iteration (s : State) (now : Nat) (detected : Int) : Option State :=
  (alarm_phase (alarm_trigger (clock_update s now) now) now detected).map mode_led

/-! ## Note detection -/

structure Key where
  name : String
  freq : ℚ

def keys : List Key :=
  [⟨"C4", 261.63⟩, ⟨"D4", 293.66⟩, ⟨"E4", 329.63⟩, ⟨"F4", 349.23⟩,
   ⟨"G4", 392.00⟩, ⟨"A4", 440.00⟩, ⟨"B4", 493.88⟩, ⟨"C5", 523.25⟩]

def num_keys : Nat := keys.length

/-- The pair `(s_prev, s_prev2)` after the first `n` rounds of the loop of `goertzel`. -/
def goertzel_loop {K : Type} [Field K] (samples : Nat → K) (coeff : K) : Nat → K × K
  | 0 => (0, 0)
  | n + 1 =>
    let (s_prev, s_prev2) := goertzel_loop samples coeff n
    let s := samples n + coeff * s_prev - s_prev2
    (s, s_prev)

/-- The power computed from the final two states (line 108). -/
def goertzel_power {K : Type} [Field K] (coeff s_prev s_prev2 : K) : K :=
  s_prev2 * s_prev2 + s_prev * s_prev - coeff * s_prev * s_prev2

/-- The function `goertzel`: energy of the window `samples[0 .. NUM_SAMPLES)` at
`target_freq`. -/
def goertzel {K : Type} [Field K] (cosf : K → K) (samples : Nat → K) (target_freq : K) : K :=
  let omega := 2 * (M_PI : K) * target_freq / (SAMPLE_RATE : K)
  let coeff := 2 * cosf omega
  let (s_prev, s_prev2) := goertzel_loop samples coeff NUM_SAMPLES
  goertzel_power coeff s_prev s_prev2

/-- The value of `avg` after the first `n` rounds of the sampling loop. -/
def avg_loop {K : Type} [Field K] (samples : Nat → K) : Nat → K
  | 0 => 0
  | n + 1 => avg_loop samples n + samples n

/-- Lines 126-129: the mean of the window, accumulated by the sampling loop, is
subtracted from every sample. -/
def remove_mean {K : Type} [Field K] (samples : Nat → K) : Nat → K :=
  let avg := avg_loop samples NUM_SAMPLES / (NUM_SAMPLES : K)
  fun i => samples i - avg

/-- Lines 119-129: the window of normalised ADC readings with its mean removed;
`adc_read i` is the result of the `i`-th call of `adc_read`. -/
def sample_window (adc_read : Nat → Nat) : Nat → ℚ :=
  remove_mean fun i => (adc_read i : ℚ) / 4095

/-- The loop of lines 133-139 over the powers of the keys from index `i` on;
the accumulator is `(max_power, detected_index)`. -/
def select_loop {K : Type} [LinearOrderedField K] : List K → Int → K × Int → K × Int
  | [], _, acc => acc
  | power :: rest, i, (max_power, detected_index) =>
    if power > max_power then select_loop rest (i + 1) (power, i)
    else select_loop rest (i + 1) (max_power, detected_index)

/-- Lines 131-143: the index of the strongest key, or -1 below the noise floor. -/
def select_note {K : Type} [LinearOrderedField K] (powers : List K) (noise_floor : K) : Int :=
  let (max_power, detected_index) := select_loop powers 0 (0, -1)
  if max_power > noise_floor then detected_index else -1

/-- Lines 131-143 on a given window: the powers of all keys, then the selection. -/
def detect_window {K : Type} [LinearOrderedField K] (cosf : K → K) (noise_floor : K)
    (samples : Nat → K) : Int :=
  select_note (keys.map fun k => goertzel cosf samples (k.freq : K)) noise_floor

/-- The function `detect_note`, with the threshold `NOISE_FLOOR` as a parameter. -/
def detect_note (cosf : ℚ → ℚ) (noise_floor : ℚ) (adc_read : Nat → Nat) : Int :=
  detect_window cosf noise_floor (sample_window adc_read)

/-! ## Display -/

/-- The frequency `keys[k].freq`. -/
def key_freq (k : Nat) : ℚ := (keys.map Key.freq).getD k 0

/-- Read of `keys[i].name`; `none` outside the array. -/
def key_name_at (i : Int) : Option String :=
  if 0 ≤ i then (keys.get? i.toNat).map Key.name else none

/-- Lines 166-173 of `update_display`: the text of the fourth line of the display;
`none` when a read falls outside `correct_sequence` or `keys`. -/
def update_display_line4 (s : State) : Option String :=
  if s.alarm_active then
    if s.current_sequence_index < SEQUENCE_LENGTH then
      (correct_sequence_at s.current_sequence_index).bind fun k =>
        (key_name_at k).map fun name => "ALARM! Next: " ++ name
    else some "ALARM! Code OK"
  else some ""

/-! ## The sequence matcher of the specification (section 4.4) -/

inductive Transition where
  | unchanged
  | advanced
  | completed
  | reset
  deriving DecidableEq, Repr

/-- The state of the reference matcher: the required sequence and the progress. -/
structure SequenceMatcher where
  spec : List Int
  progress : Nat
  deriving DecidableEq, Repr

/-- Reference `on_note` as the specification words it: no note changes nothing; the
expected note increments the progress and signals `completed` when the progress
reaches the length of the sequence, `advanced` otherwise; any other note resets the
progress and signals `reset`. -/
def SequenceMatcher.on_note (m : SequenceMatcher) (detected : Option Int) :
    SequenceMatcher × Transition :=
  match detected with
  | none => (m, .unchanged)
  | some d =>
    if m.spec.get? m.progress = some d then
      let m1 := { m with progress := m.progress + 1 }
      if m1.progress = m.spec.length then (m1, .completed) else (m1, .advanced)
    else ({ m with progress := 0 }, .reset)

/-- The caller of the reference matcher: on `completed` it resets the progress to 0
and leaves the active state. The result is `(active, progress)`. -/
def reference_step (m : SequenceMatcher) (detected : Option Int) : Bool × Nat :=
  match m.on_note detected with
  | (_, .completed) => (false, 0)
  | (m1, _) => (true, m1.progress)

/-- A detector result as seen by the reference matcher: -1 is "no note". -/
def note_of (detected : Int) : Option Int :=
  if detected = -1 then none else some detected

/-! ## Runs -/

/-- What can happen next: a main-loop iteration or a button edge. -/
inductive Event where
  | loop (now : Nat) (detected : Int)
  | button (gpio : Nat) (now : Nat)
  deriving DecidableEq, Repr

def step (s : State) : Event → Option State
  | .loop now detected => main_loop_iteration s now detected
  | .button gpio now => some (gpio_irq_handler s gpio now)

def run (s : State) : List Event → Option State
  | [] => some s
  | e :: es => (step s e).bind fun s1 => run s1 es

/-! ## Predicates used by the statements -/

/-- A clock value whose three fields are within their ranges. -/
def in_range (t : ClockTime) : Prop :=
  0 ≤ t.hour ∧ t.hour ≤ 23 ∧ 0 ≤ t.min ∧ t.min ≤ 59 ∧ 0 ≤ t.sec ∧ t.sec ≤ 59

instance (t : ClockTime) : Decidable (in_range t) := by
  unfold in_range; infer_instance

/-- A clock value read as a number of seconds since midnight. -/
def seconds_of_day (t : ClockTime) : Int := 3600 * t.hour + 60 * t.min + t.sec

/-- The test of lines 310-313 as a proposition on the state reached after the clock
update. -/
def trigger_condition (s : State) : Prop :=
  s.alarm_active = false ∧ s.currentTime.hour = s.alarmTime.hour ∧
    s.currentTime.min = s.alarmTime.min ∧ s.currentTime.sec = 0

instance (s : State) : Decidable (trigger_condition s) := by
  unfold trigger_condition; infer_instance

/-- The outcome of the sequence-matching block for an active alarm with progress `i` and
detector result `d`: the new value `a` of `alarm_active` and the new progress `j`. -/
def match_outcome (i d : Int) (a : Bool) (j : Int) : Prop :=
  (d = -1 ∧ a = true ∧ j = i) ∨
  (d ≠ -1 ∧ correct_sequence_at i = some d ∧ i + 1 < 3 ∧ a = true ∧ j = i + 1) ∨
  (d ≠ -1 ∧ correct_sequence_at i = some d ∧ i = 2 ∧ a = false ∧ j = 0) ∨
  (d ≠ -1 ∧ correct_sequence_at i ≠ some d ∧ a = true ∧ j = 0)

/-- The notes heard since the alarm last became active, after one more event: the
activation of the alarm empties the list, and an iteration that runs the detector while
the alarm is active appends its result unless it is "no note". -/
def step_heard (s : State) (heard : List Int) : Event → List Int
  | .button _ _ => heard
  | .loop now detected =>
    let s1 := clock_update s now
    let s2 := alarm_trigger s1 now
    let heard1 := if s1.alarm_active = false ∧ s2.alarm_active = true then [] else heard
    if s2.alarm_active = true ∧ detected ≠ -1 then heard1 ++ [detected] else heard1

/-- A run that also records the notes heard since the alarm last became active. -/
def run_heard (s : State) (heard : List Int) : List Event → Option (State × List Int)
  | [] => some (s, heard)
  | e :: es => (step s e).bind fun s1 => run_heard s1 (step_heard s heard e) es

/-- An event that feeds no note to the matcher: a button edge, or an iteration whose
detector result is "no note". -/
def quiet : Event → Prop
  | .button _ _ => True
  | .loop _ detected => detected = -1

instance (e : Event) : Decidable (quiet e) := by
  cases e <;> (unfold quiet; infer_instance)

/-- The invariant of the reachable states: the progress indexes `correct_sequence`
and both clock values are in range. -/
def Inv (s : State) : Prop :=
  0 ≤ s.current_sequence_index ∧ s.current_sequence_index < 3 ∧
    in_range s.currentTime ∧ in_range s.alarmTime

instance (s : State) : Decidable (Inv s) := by
  unfold Inv; infer_instance

/-- The invariant that links the progress of an active alarm to the notes heard since
its activation. -/
def heard_inv (s : State) (heard : List Int) : Prop :=
  0 ≤ s.current_sequence_index ∧ s.current_sequence_index < 3 ∧
    (s.alarm_active = true →
      s.current_sequence_index = 0 ∨
      (s.current_sequence_index = 1 ∧ [0] <:+ heard) ∨
      (s.current_sequence_index = 2 ∧ [0, 2] <:+ heard))

/-- Whether the trigger block of the iteration run at `now` from `s` performs the Idle
to Active transition: the test of lines 310-313 on the state after the clock update. -/
def fires (s : State) (now : Nat) : Bool := alarm_condition (clock_update s now)

/-- Whether, after the clock update of the iteration run at `now` from `s`, currentTime
equals alarmTime in hour and minute with sec = 0. -/
def time_matches (s : State) (now : Nat) : Bool :=
  decide ((clock_update s now).currentTime.hour = (clock_update s now).alarmTime.hour) &&
    decide ((clock_update s now).currentTime.min = (clock_update s now).alarmTime.min) &&
    decide ((clock_update s now).currentTime.sec = 0)

/-- Whether the time matches in every iteration of a run. -/
def all_match (s : State) : List Event → Bool
  | [] => true
  | .button gpio now :: es => all_match (gpio_irq_handler s gpio now) es
  | .loop now detected :: es =>
    time_matches s now &&
      match main_loop_iteration s now detected with
      | some s1 => all_match s1 es
      | none => true

/-- For each iteration of a run, in order, whether its trigger block fired. -/
def fire_trace (s : State) : List Event → List Bool
  | [] => []
  | .button gpio now :: es => fire_trace (gpio_irq_handler s gpio now) es
  | .loop now detected :: es =>
    fires s now ::
      match main_loop_iteration s now detected with
      | some s1 => fire_trace s1 es
      | none => []

/-- For each iteration of a run, in order, whether it ended with the alarm inactive. -/
def disarm_trace (s : State) : List Event → List Bool
  | [] => []
  | .button gpio now :: es => disarm_trace (gpio_irq_handler s gpio now) es
  | .loop now detected :: es =>
    match main_loop_iteration s now detected with
    | some s1 => (!s1.alarm_active) :: disarm_trace s1 es
    | none => []

/-- The edges that bring the initial state to SetClock mode with currentTime 07:00:00:
Button1 then Button2 50 ms later, then nineteen Button1 edges 200 ms apart. -/
def set_clock_to_alarm : List Event :=
  Event.button BUTTON_PIN1 1000000 :: Event.button BUTTON_PIN2 1050000 ::
    (List.range 19).map fun k => Event.button BUTTON_PIN1 (2000000 + 200000 * k)

/-- The state reached from the initial state by `set_clock_to_alarm`. -/
def at_alarm_time : State :=
  { init 0 with mode := .MODE_SET_CLOCK, currentTime := ⟨7, 0, 0⟩,
                last_press_time_button1 := 5600000, last_press_time_button2 := 1050000 }

/-- Four iterations 400 ms apart whose detector results are 0, 2, 4 and "no note". -/
def retrigger_run : List Event :=
  [Event.loop 6000000 0, Event.loop 6400000 2, Event.loop 6800000 4, Event.loop 7200000 (-1)]

/-- Four iterations in which the sequence is not completed. -/
def wrong_note_run : List Event :=
  [Event.loop 6000000 0, Event.loop 6400000 3, Event.loop 6500000 0, Event.loop 6900000 (-1)]

/-- The invariant of the selection loop after the powers `pre` have been examined:
either nothing has been selected, the maximum is still 0 and no power is positive, or
the selected index is the first one that holds the largest power, which is positive. -/
def select_inv {K : Type} [LinearOrderedField K] (pre : List K) (max_power : K)
    (detected_index : Int) : Prop :=
  (detected_index = -1 ∧ max_power = 0 ∧ ∀ p ∈ pre, p ≤ 0) ∨
  (∃ n : Nat, detected_index = (n : Int) ∧ n < pre.length ∧ pre.getD n 0 = max_power ∧
    0 < max_power ∧ (∀ p ∈ pre, p ≤ max_power) ∧ (∀ j, j < n → pre.getD j 0 < max_power))

/-- The cycle of the modes as the specification words it:
Normal, then SetClock, then SetAlarm, then Normal again. -/
def mode_cycle : Mode → Mode
  | .MODE_NORMAL => .MODE_SET_CLOCK
  | .MODE_SET_CLOCK => .MODE_SET_ALARM
  | .MODE_SET_ALARM => .MODE_NORMAL

/-- The single-button action of Button1 in the current mode: the hour of the selected
clock value is incremented modulo 24; nothing changes in Normal mode. -/
def single_press1 (s : State) : State :=
  match s.mode with
  | .MODE_NORMAL => s
  | .MODE_SET_CLOCK =>
    { s with currentTime := { s.currentTime with hour := (s.currentTime.hour + 1) % 24 } }
  | .MODE_SET_ALARM =>
    { s with alarmTime := { s.alarmTime with hour := (s.alarmTime.hour + 1) % 24 } }

/-- The single-button action of Button2 in the current mode: the minute of the selected
clock value is incremented modulo 60, without carry; nothing changes in Normal mode. -/
def single_press2 (s : State) : State :=
  match s.mode with
  | .MODE_NORMAL => s
  | .MODE_SET_CLOCK =>
    { s with currentTime := { s.currentTime with min := (s.currentTime.min + 1) % 60 } }
  | .MODE_SET_ALARM =>
    { s with alarmTime := { s.alarmTime with min := (s.alarmTime.min + 1) % 60 } }

/-- Thirty-three iterations 400 ms apart, none of which detects a note: the instants
0.4 s, 0.8 s, ..., 13.2 s. -/
def slow_iterations : List Event :=
  (List.range 33).map fun k => Event.loop (400000 * (k + 1)) (-1)

/-- The number of iterations of a run whose clock-update block advanced the clock. -/
def advances (s : State) : List Event → Nat
  | [] => 0
  | .button gpio now :: es => advances (gpio_irq_handler s gpio now) es
  | .loop now detected :: es =>
    (if s.mode ≠ .MODE_SET_CLOCK ∧ absolute_time_diff_us s.last_update now ≥ 1000000
      then 1 else 0) +
      match main_loop_iteration s now detected with
      | some s1 => advances s1 es
      | none => 0

/-- The sum z[m-1] + u z[m-2] + ... + u^(m-1) z[0], accumulated as the loop of
`goertzel` accumulates its states; with u on the unit circle it is the phasor whose
squared norm is the Goertzel power. -/
def phasor_sum {R : Type} [CommRing R] (z : ℕ → R) (u : R) : ℕ → R
  | 0 => 0
  | m + 1 => z m + u * phasor_sum z u m

/-! ## Clock update -/

/-- C7: with an in-range clock, the clock-update block adds exactly one second with
full carry (seconds of day modulo 86400, fields still in range) when the mode is not
SetClock and at least 1,000,000 microseconds have elapsed since `last_update`; when the
mode is SetClock or less than a second has elapsed it leaves `currentTime` unchanged. -/
theorem clock_update_one_second (s : State) (now : Nat) (hr : in_range s.currentTime) :
    (s.mode ≠ .MODE_SET_CLOCK ∧ absolute_time_diff_us s.last_update now ≥ 1000000 →
      in_range (clock_update s now).currentTime ∧
      seconds_of_day (clock_update s now).currentTime
        = (seconds_of_day s.currentTime + 1) % 86400) ∧
    (s.mode = .MODE_SET_CLOCK ∨ absolute_time_diff_us s.last_update now < 1000000 →
      (clock_update s now).currentTime = s.currentTime) := by
  obtain ⟨h0, h1, m0, m1, s0, s1⟩ := hr
  have hh : (s.currentTime.hour + 1).tmod 24 = (s.currentTime.hour + 1) % 24 :=
    Int.tmod_eq_emod (by omega) (by omega)
  constructor
  · intro hc
    rw [clock_update, if_pos hc]
    dsimp only
    split_ifs with a b <;> simp only [in_range, seconds_of_day, hh] <;> omega
  · intro hc
    have : ¬ (s.mode ≠ .MODE_SET_CLOCK ∧ absolute_time_diff_us s.last_update now ≥ 1000000) := by
      rcases hc with hc | hc
      · simp [hc]
      · intro h; omega
    rw [clock_update, if_neg this]

/-- Witness of C7: at 23:59:59 in Normal mode, one second after the last advance, the
clock becomes 00:00:00. -/
theorem clock_update_one_second_witness :
    (clock_update { init 0 with currentTime := ⟨23, 59, 59⟩ } 1000000).currentTime = ⟨0, 0, 0⟩ ∧
    seconds_of_day (clock_update { init 0 with currentTime := ⟨23, 59, 59⟩ } 1000000).currentTime
      = (seconds_of_day (⟨23, 59, 59⟩ : ClockTime) + 1) % 86400 :=
  ⟨by decide,
   ((clock_update_one_second { init 0 with currentTime := ⟨23, 59, 59⟩ } 1000000
      (by decide)).1 ⟨by decide, by decide⟩).2⟩

/-! ## Alarm trigger -/

/-- C5: in every main-loop iteration the trigger block, run on the state reached after
the clock update, performs the Idle to Active transition (alarm_active := true,
current_sequence_index := 0, alarm_activation_time := now) if and only if alarm_active is
false and the hour and minute of currentTime and alarmTime agree and sec is 0; otherwise
the block changes nothing. -/
theorem alarm_trigger_exact (s : State) (now : Nat) (detected : Int) :
    main_loop_iteration s now detected
      = (alarm_phase (alarm_trigger (clock_update s now) now) now detected).map mode_led ∧
    (((clock_update s now).alarm_active = false ∧
        (alarm_trigger (clock_update s now) now).alarm_active = true)
      ↔ trigger_condition (clock_update s now)) ∧
    (trigger_condition (clock_update s now) →
      alarm_trigger (clock_update s now) now =
        { clock_update s now with
          alarm_active := true, current_sequence_index := 0, alarm_activation_time := now }) ∧
    (¬ trigger_condition (clock_update s now) →
      alarm_trigger (clock_update s now) now = clock_update s now) := by
  refine ⟨rfl, ?_⟩
  generalize clock_update s now = s1
  have key : alarm_condition s1 = true ↔ trigger_condition s1 := by
    simp [alarm_condition, trigger_condition, and_assoc]
  refine ⟨?_, ?_, ?_⟩
  · by_cases h : trigger_condition s1
    · have hc := key.2 h
      simp [alarm_trigger, hc, h, h.1]
    · have hc : ¬ alarm_condition s1 = true := fun hc => h (key.1 hc)
      simp only [alarm_trigger, hc, if_false, h, iff_false, not_and]
      intro h1 h2
      simp [h1] at h2
  · intro h
    simp [alarm_trigger, key.2 h]
  · intro h
    have hc : ¬ alarm_condition s1 = true := fun hc => h (key.1 hc)
    simp [alarm_trigger, hc]

/-! ## Sequence matching -/

theorem correct_sequence_at_cases (i : Int) (h0 : 0 ≤ i) (h3 : i < SEQUENCE_LENGTH) :
    i = 0 ∨ i = 1 ∨ i = 2 := by
  unfold SEQUENCE_LENGTH at h3
  omega

/-- C2: for an active alarm with progress p in [0, 3), the sequence-matching block
leaves the state unchanged on "no note" (-1); on the expected note it increments the
progress, unless that reaches 3, in which case it clears alarm_active and resets the
progress to 0; on any other note it resets the progress to 0 and leaves the alarm
active. The resulting pair (alarm_active, progress) is the one of the reference
SequenceMatcher of the specification. -/
theorem sequence_match_refines (s : State) (d : Int)
    (ha : s.alarm_active = true)
    (h0 : 0 ≤ s.current_sequence_index) (h3 : s.current_sequence_index < SEQUENCE_LENGTH) :
    (d = -1 → sequence_match s d = some s) ∧
    (d ≠ -1 → correct_sequence_at s.current_sequence_index = some d →
      s.current_sequence_index + 1 ≠ SEQUENCE_LENGTH →
      sequence_match s d
        = some { s with current_sequence_index := s.current_sequence_index + 1 }) ∧
    (d ≠ -1 → correct_sequence_at s.current_sequence_index = some d →
      s.current_sequence_index + 1 = SEQUENCE_LENGTH →
      sequence_match s d
        = some { s with alarm_active := false, current_sequence_index := 0, led_red := false }) ∧
    (d ≠ -1 → correct_sequence_at s.current_sequence_index ≠ some d →
      sequence_match s d = some { s with current_sequence_index := 0 }) ∧
    (∃ s1, sequence_match s d = some s1 ∧
      (s1.alarm_active, s1.current_sequence_index) =
        ((reference_step ⟨correct_sequence, s.current_sequence_index.toNat⟩ (note_of d)).1,
         ((reference_step ⟨correct_sequence, s.current_sequence_index.toNat⟩
            (note_of d)).2 : Int))) := by
  obtain ⟨mode, ct, alt, act, actt, idx, l1, l2, lu, lr, lg⟩ := s
  simp only at ha h0 h3 ⊢
  subst ha
  rcases correct_sequence_at_cases idx h0 h3 with h | h | h <;> subst h
  all_goals
    refine ⟨?_, ?_, ?_, ?_, ?_⟩
    · intro hd
      simp [sequence_match, hd]
    · intro hd he hn
      simp [correct_sequence_at, correct_sequence] at he
      subst he
      simp [sequence_match, correct_sequence_at, correct_sequence, SEQUENCE_LENGTH] at hn ⊢
    · intro hd he hn
      simp [correct_sequence_at, correct_sequence] at he
      subst he
      simp [sequence_match, correct_sequence_at, correct_sequence, SEQUENCE_LENGTH] at hn ⊢
    · intro hd he
      simp [correct_sequence_at, correct_sequence] at he
      have he2 : ¬ d = _ := fun h => he h.symm
      simp [sequence_match, correct_sequence_at, correct_sequence, hd, he2]
    · by_cases hd : d = -1
      · subst hd
        simp [sequence_match, reference_step, SequenceMatcher.on_note, note_of]
      · simp [sequence_match, correct_sequence_at, correct_sequence, SEQUENCE_LENGTH,
          reference_step, SequenceMatcher.on_note, note_of, hd]
        split_ifs with he he2 <;>
          first
          | (exfalso; omega)
          | (subst he; exact ⟨_, rfl, rfl, rfl⟩)
          | exact ⟨_, rfl, rfl, rfl⟩

/-- Witness of C2: with progress 2 the note 4 completes the sequence. -/
theorem sequence_match_refines_witness :
    sequence_match { init 0 with alarm_active := true, current_sequence_index := 2 } 4
      = some { init 0 with alarm_active := false, current_sequence_index := 0, led_red := false } :=
  (sequence_match_refines { init 0 with alarm_active := true, current_sequence_index := 2 } 4
    rfl (by decide) (by decide)).2.2.1 (by decide) (by decide) (by decide)

/-! ## Frame lemmas of the blocks -/

theorem gpio_irq_handler_alarm (s : State) (gpio now : Nat) :
    (gpio_irq_handler s gpio now).alarm_active = s.alarm_active ∧
    (gpio_irq_handler s gpio now).current_sequence_index = s.current_sequence_index := by
  unfold gpio_irq_handler
  dsimp only
  split_ifs <;> exact ⟨rfl, rfl⟩

theorem clock_update_alarm (s : State) (now : Nat) :
    (clock_update s now).alarm_active = s.alarm_active ∧
    (clock_update s now).current_sequence_index = s.current_sequence_index ∧
    (clock_update s now).alarmTime = s.alarmTime ∧
    (clock_update s now).mode = s.mode := by
  unfold clock_update
  dsimp only
  split_ifs <;> exact ⟨rfl, rfl, rfl, rfl⟩

theorem alarm_trigger_of_active (s : State) (now : Nat) (ha : s.alarm_active = true) :
    alarm_trigger s now = s := by
  simp [alarm_trigger, alarm_condition, ha]

theorem blink_alarm (s : State) (now : Nat) :
    (blink s now).alarm_active = s.alarm_active ∧
    (blink s now).current_sequence_index = s.current_sequence_index ∧
    (blink s now).currentTime = s.currentTime ∧
    (blink s now).alarmTime = s.alarmTime := by
  unfold blink
  dsimp only
  split_ifs <;> exact ⟨rfl, rfl, rfl, rfl⟩

theorem mode_led_alarm (s : State) :
    (mode_led s).alarm_active = s.alarm_active ∧
    (mode_led s).current_sequence_index = s.current_sequence_index ∧
    (mode_led s).currentTime = s.currentTime ∧
    (mode_led s).alarmTime = s.alarmTime := by
  unfold mode_led
  split_ifs <;> exact ⟨rfl, rfl, rfl, rfl⟩

/-- The four outcomes of the sequence-matching block on a progress within bounds. -/
theorem sequence_match_cases (s : State) (d : Int)
    (h0 : 0 ≤ s.current_sequence_index) (h3 : s.current_sequence_index < 3) :
    ∃ s1, sequence_match s d = some s1 ∧
      s1.currentTime = s.currentTime ∧ s1.alarmTime = s.alarmTime ∧
      ((d = -1 ∧ s1.alarm_active = s.alarm_active ∧
          s1.current_sequence_index = s.current_sequence_index) ∨
        (d ≠ -1 ∧ correct_sequence_at s.current_sequence_index = some d ∧
          s.current_sequence_index + 1 < 3 ∧ s1.alarm_active = s.alarm_active ∧
          s1.current_sequence_index = s.current_sequence_index + 1) ∨
        (d ≠ -1 ∧ correct_sequence_at s.current_sequence_index = some d ∧
          s.current_sequence_index = 2 ∧ s1.alarm_active = false ∧
          s1.current_sequence_index = 0) ∨
        (d ≠ -1 ∧ correct_sequence_at s.current_sequence_index ≠ some d ∧
          s1.alarm_active = s.alarm_active ∧ s1.current_sequence_index = 0)) := by
  obtain ⟨mode, ct, alt, act, actt, idx, l1, l2, lu, lr, lg⟩ := s
  simp only at h0 h3 ⊢
  by_cases hd : d = -1
  · subst hd
    refine ⟨_, rfl, rfl, rfl, Or.inl ⟨rfl, rfl, rfl⟩⟩
  · have hi : idx = 0 ∨ idx = 1 ∨ idx = 2 := by omega
    rcases hi with h | h | h <;> subst h <;>
      simp [sequence_match, correct_sequence_at, correct_sequence, SEQUENCE_LENGTH, hd] <;>
      split_ifs with he <;> simp [he] <;> omega

/-! ## One iteration, seen from the alarm -/

theorem alarm_trigger_cases (s : State) (now : Nat) :
    (trigger_condition s ∧ s.alarm_active = false ∧
      (alarm_trigger s now).alarm_active = true ∧
      (alarm_trigger s now).current_sequence_index = 0 ∧
      (alarm_trigger s now).currentTime = s.currentTime ∧
      (alarm_trigger s now).alarmTime = s.alarmTime) ∨
    (¬ trigger_condition s ∧ alarm_trigger s now = s) := by
  have key : alarm_condition s = true ↔ trigger_condition s := by
    simp [alarm_condition, trigger_condition, and_assoc]
  by_cases h : trigger_condition s
  · left
    simp [alarm_trigger, key.2 h, h, h.1]
  · right
    have hc : ¬ alarm_condition s = true := fun hc => h (key.1 hc)
    simp [alarm_trigger, hc, h]

/-- The alarm branch on a state whose progress is within bounds. -/
theorem alarm_phase_cases (s : State) (now : Nat) (d : Int)
    (h0 : 0 ≤ s.current_sequence_index) (h3 : s.current_sequence_index < 3) :
    ∃ s1, alarm_phase s now d = some s1 ∧
      s1.currentTime = s.currentTime ∧ s1.alarmTime = s.alarmTime ∧
      ((s.alarm_active = false ∧ s1.alarm_active = false ∧
          s1.current_sequence_index = s.current_sequence_index) ∨
        (s.alarm_active = true ∧
          match_outcome s.current_sequence_index d s1.alarm_active
            s1.current_sequence_index)) := by
  by_cases ha : s.alarm_active = true
  · obtain ⟨b1, b2, b3, b4⟩ := blink_alarm s now
    obtain ⟨s1, e1, e2, e3, e4⟩ :=
      sequence_match_cases (blink s now) d (by rw [b2]; exact h0) (by rw [b2]; exact h3)
    refine ⟨s1, by simp [alarm_phase, ha, e1], by rw [e2, b3], by rw [e3, b4], Or.inr ⟨ha, ?_⟩⟩
    rw [b1, b2, ha] at e4
    exact e4
  · have ha2 : s.alarm_active = false := by simpa using ha
    exact ⟨{ s with led_red := false }, by rw [alarm_phase, if_neg ha], rfl, rfl,
      Or.inl ⟨ha2, ha2, rfl⟩⟩

/-- One iteration from a state whose progress is within bounds: it returns a state,
and the alarm and the progress of that state are those of the alarm branch run after the
trigger. -/
theorem main_loop_iteration_cases (s : State) (now : Nat) (d : Int)
    (h0 : 0 ≤ s.current_sequence_index) (h3 : s.current_sequence_index < 3) :
    ∃ s1, main_loop_iteration s now d = some s1 ∧
      s1.currentTime = (clock_update s now).currentTime ∧ s1.alarmTime = s.alarmTime ∧
      (((alarm_trigger (clock_update s now) now).alarm_active = false ∧
          s1.alarm_active = false ∧
          s1.current_sequence_index = s.current_sequence_index) ∨
        ((alarm_trigger (clock_update s now) now).alarm_active = true ∧
          match_outcome (alarm_trigger (clock_update s now) now).current_sequence_index d
            s1.alarm_active s1.current_sequence_index)) := by
  obtain ⟨c1, c2, c3, c4⟩ := clock_update_alarm s now
  have hb : 0 ≤ (alarm_trigger (clock_update s now) now).current_sequence_index ∧
      (alarm_trigger (clock_update s now) now).current_sequence_index < 3 ∧
      (alarm_trigger (clock_update s now) now).currentTime = (clock_update s now).currentTime ∧
      (alarm_trigger (clock_update s now) now).alarmTime = s.alarmTime ∧
      ((alarm_trigger (clock_update s now) now).alarm_active = false →
        (alarm_trigger (clock_update s now) now).current_sequence_index
          = s.current_sequence_index) := by
    rcases alarm_trigger_cases (clock_update s now) now with ⟨_, _, t1, t2, t3, t4⟩ | ⟨_, t⟩
    · rw [t2, t3, t4, c3, t1]
      simp
    · rw [t, c2, c3]
      exact ⟨h0, h3, rfl, rfl, fun _ => rfl⟩
  obtain ⟨hb0, hb3, hbt, hba, hbi⟩ := hb
  obtain ⟨s1, e1, e2, e3, e4⟩ :=
    alarm_phase_cases (alarm_trigger (clock_update s now) now) now d hb0 hb3
  obtain ⟨m1, m2, m3, m4⟩ := mode_led_alarm s1
  refine ⟨mode_led s1, by simp [main_loop_iteration, e1], by rw [m3, e2, hbt],
    by rw [m4, e3, hba], ?_⟩
  rw [m1, m2]
  rcases e4 with ⟨a1, a2, a3⟩ | ⟨a1, a2⟩
  · exact Or.inl ⟨a1, a2, by rw [a3, hbi a1]⟩
  · exact Or.inr ⟨a1, a2⟩

/-! ## Range invariant -/

theorem tmod_succ_range (x n : Int) (h0 : 0 ≤ x) (hn : 0 < n) :
    0 ≤ (x + 1).tmod n ∧ (x + 1).tmod n ≤ n - 1 := by
  have h1 : 0 ≤ (x + 1).tmod n := Int.tmod_nonneg n (by omega)
  have h2 : (x + 1).tmod n < n := Int.tmod_lt_of_pos (x + 1) hn
  omega

theorem clock_update_range (s : State) (now : Nat) (hr : in_range s.currentTime) :
    in_range (clock_update s now).currentTime := by
  obtain ⟨h0, h1, m0, m1, s0, s1⟩ := hr
  have hh := tmod_succ_range s.currentTime.hour 24 h0 (by omega)
  unfold clock_update
  dsimp only
  split_ifs <;> simp only [in_range] <;> omega

theorem gpio_irq_handler_range (s : State) (gpio now : Nat)
    (hc : in_range s.currentTime) (ha : in_range s.alarmTime) :
    in_range (gpio_irq_handler s gpio now).currentTime ∧
    in_range (gpio_irq_handler s gpio now).alarmTime := by
  obtain ⟨h0, h1, m0, m1, s0, s1⟩ := hc
  obtain ⟨ah0, ah1, am0, am1, as0, as1⟩ := ha
  have e1 := tmod_succ_range s.currentTime.hour 24 h0 (by omega)
  have e2 := tmod_succ_range s.currentTime.min 60 m0 (by omega)
  have e3 := tmod_succ_range s.alarmTime.hour 24 ah0 (by omega)
  have e4 := tmod_succ_range s.alarmTime.min 60 am0 (by omega)
  unfold gpio_irq_handler
  dsimp only
  split_ifs <;> simp only [in_range] <;> omega

theorem match_outcome_bounds (i d : Int) (a : Bool) (j : Int)
    (h0 : 0 ≤ i) (h3 : i < 3) (h : match_outcome i d a j) : 0 ≤ j ∧ j < 3 := by
  unfold match_outcome at h
  omega

theorem init_inv (t0 : Nat) : Inv (init t0) := by
  simp [Inv, init, in_range]

theorem step_inv (s : State) (e : Event) (h : Inv s) :
    ∃ s1, step s e = some s1 ∧ Inv s1 := by
  obtain ⟨h0, h3, hc, ha⟩ := h
  cases e with
  | button gpio now =>
    obtain ⟨g1, g2⟩ := gpio_irq_handler_alarm s gpio now
    obtain ⟨r1, r2⟩ := gpio_irq_handler_range s gpio now hc ha
    exact ⟨_, rfl, by rw [g2]; exact h0, by rw [g2]; exact h3, r1, r2⟩
  | loop now d =>
    obtain ⟨s1, e1, e2, e3, e4⟩ := main_loop_iteration_cases s now d h0 h3
    refine ⟨s1, e1, ?_, ?_, by rw [e2]; exact clock_update_range s now hc, by rw [e3]; exact ha⟩
    · rcases e4 with ⟨_, _, a3⟩ | ⟨_, a2⟩
      · rw [a3]; exact h0
      · rcases alarm_trigger_cases (clock_update s now) now with ⟨_, _, _, t2, _, _⟩ | ⟨_, t⟩
        · rw [t2] at a2
          exact (match_outcome_bounds _ _ _ _ (by omega) (by omega) a2).1
        · rw [t, (clock_update_alarm s now).2.1] at a2
          exact (match_outcome_bounds _ _ _ _ h0 h3 a2).1
    · rcases e4 with ⟨_, _, a3⟩ | ⟨_, a2⟩
      · rw [a3]; exact h3
      · rcases alarm_trigger_cases (clock_update s now) now with ⟨_, _, _, t2, _, _⟩ | ⟨_, t⟩
        · rw [t2] at a2
          exact (match_outcome_bounds _ _ _ _ (by omega) (by omega) a2).2
        · rw [t, (clock_update_alarm s now).2.1] at a2
          exact (match_outcome_bounds _ _ _ _ h0 h3 a2).2

theorem run_inv (evs : List Event) : ∀ s : State, Inv s → ∃ s1, run s evs = some s1 ∧ Inv s1 := by
  induction evs with
  | nil => intro s h; exact ⟨s, rfl, h⟩
  | cons e es ih =>
    intro s h
    obtain ⟨s1, e1, h1⟩ := step_inv s e h
    obtain ⟨s2, e2, h2⟩ := ih s1 h1
    exact ⟨s2, by simp [run, e1, e2], h2⟩

/-- C8: from currentTime = 12:00:00 and alarmTime = 07:00:00, every finite sequence of
main-loop iterations and button edges (any pin, any timestamps, any detector results)
runs to a state, and in that state both currentTime and alarmTime have
0 <= hour <= 23, 0 <= min <= 59 and 0 <= sec <= 59. -/
theorem clock_fields_in_range (t0 : Nat) (evs : List Event) :
    (init t0).currentTime = ⟨12, 0, 0⟩ ∧ (init t0).alarmTime = ⟨7, 0, 0⟩ ∧
    ∃ s, run (init t0) evs = some s ∧ in_range s.currentTime ∧ in_range s.alarmTime := by
  obtain ⟨s, e, h⟩ := run_inv evs (init t0) (init_inv t0)
  exact ⟨rfl, rfl, s, e, h.2.2.1, h.2.2.2⟩

/-! ## Feeding notes to an active alarm -/

theorem run_append (a b : List Event) :
    ∀ s : State, run s (a ++ b) = (run s a).bind fun s1 => run s1 b := by
  induction a with
  | nil => intro s; rfl
  | cons e es ih =>
    intro s
    cases h : step s e with
    | none => simp [run, h]
    | some s1 => simp [run, h, ih]

/-- One iteration from an active alarm with a progress within bounds. -/
theorem loop_active_outcome (s : State) (now : Nat) (d : Int) (ha : s.alarm_active = true)
    (h0 : 0 ≤ s.current_sequence_index) (h3 : s.current_sequence_index < 3) :
    ∃ s1, main_loop_iteration s now d = some s1 ∧
      match_outcome s.current_sequence_index d s1.alarm_active s1.current_sequence_index := by
  obtain ⟨c1, c2, _, _⟩ := clock_update_alarm s now
  obtain ⟨s1, e1, _, _, e4⟩ := main_loop_iteration_cases s now d h0 h3
  rw [alarm_trigger_of_active _ now (by rw [c1]; exact ha), c1, c2, ha] at e4
  rcases e4 with ⟨a1, _, _⟩ | ⟨_, a2⟩
  · exact absurd a1 (by simp)
  · exact ⟨s1, e1, a2⟩

/-- Button edges and iterations that detect no note keep an active alarm and its
progress. -/
theorem quiet_run (evs : List Event) :
    ∀ s : State, (∀ e ∈ evs, quiet e) → s.alarm_active = true →
      0 ≤ s.current_sequence_index → s.current_sequence_index < 3 →
      ∃ s1, run s evs = some s1 ∧ s1.alarm_active = true ∧
        s1.current_sequence_index = s.current_sequence_index := by
  induction evs with
  | nil => intro s _ ha _ _; exact ⟨s, rfl, ha, rfl⟩
  | cons e es ih =>
    intro s hq ha h0 h3
    have hqe : quiet e := hq e (List.mem_cons_self e es)
    have hqs : ∀ x ∈ es, quiet x := fun x hx => hq x (List.mem_cons_of_mem e hx)
    have hstep : ∃ s1, step s e = some s1 ∧ s1.alarm_active = true ∧
        s1.current_sequence_index = s.current_sequence_index := by
      cases e with
      | button gpio now =>
        obtain ⟨g1, g2⟩ := gpio_irq_handler_alarm s gpio now
        exact ⟨_, rfl, by rw [g1]; exact ha, g2⟩
      | loop now d =>
        have hd : d = -1 := hqe
        obtain ⟨s1, e1, e2⟩ := loop_active_outcome s now d ha h0 h3
        refine ⟨s1, e1, ?_⟩
        unfold match_outcome at e2
        rcases e2 with ⟨_, a, b⟩ | ⟨n, _⟩ | ⟨n, _⟩ | ⟨n, _⟩
        · exact ⟨a, b⟩
        · exact absurd hd n
        · exact absurd hd n
        · exact absurd hd n
    obtain ⟨s1, e1, a1, i1⟩ := hstep
    obtain ⟨s2, e2, a2, i2⟩ := ih s1 hqs a1 (by rw [i1]; exact h0) (by rw [i1]; exact h3)
    exact ⟨s2, by simp [run, e1, e2], a2, by rw [i2, i1]⟩

/-- A note fed after any quiet events meets the matcher at the same progress. -/
theorem feed_note (s : State) (pad : List Event) (now : Nat) (d : Int)
    (hq : ∀ e ∈ pad, quiet e) (ha : s.alarm_active = true)
    (h0 : 0 ≤ s.current_sequence_index) (h3 : s.current_sequence_index < 3) :
    ∃ s1, run s (pad ++ [Event.loop now d]) = some s1 ∧
      match_outcome s.current_sequence_index d s1.alarm_active s1.current_sequence_index := by
  obtain ⟨s1, e1, a1, i1⟩ := quiet_run pad s hq ha h0 h3
  obtain ⟨s2, e2, m2⟩ :=
    loop_active_outcome s1 now d a1 (by rw [i1]; exact h0) (by rw [i1]; exact h3)
  refine ⟨s2, ?_, by rw [← i1]; exact m2⟩
  rw [run_append, e1]
  simp [run, step, e2]

/-- The expected note, not the last one, advances the progress. -/
theorem feed_advance (s : State) (pad : List Event) (now : Nat) (i d : Int)
    (hq : ∀ e ∈ pad, quiet e) (ha : s.alarm_active = true)
    (hi : s.current_sequence_index = i) (h0 : 0 ≤ i) (h2 : i + 1 < 3)
    (hd : correct_sequence_at i = some d) (hn : d ≠ -1) :
    ∃ s1, run s (pad ++ [Event.loop now d]) = some s1 ∧
      s1.alarm_active = true ∧ s1.current_sequence_index = i + 1 := by
  obtain ⟨s1, e1, m1⟩ := feed_note s pad now d hq ha (by omega) (by omega)
  refine ⟨s1, e1, ?_⟩
  rw [hi] at m1
  unfold match_outcome at m1
  rcases m1 with ⟨n, _⟩ | ⟨_, _, _, a, b⟩ | ⟨_, _, c, _⟩ | ⟨_, c, _⟩
  · exact absurd n hn
  · exact ⟨a, b⟩
  · omega
  · exact absurd hd c

/-- The last note of the sequence disarms the alarm. -/
theorem feed_complete (s : State) (pad : List Event) (now : Nat)
    (hq : ∀ e ∈ pad, quiet e) (ha : s.alarm_active = true)
    (hi : s.current_sequence_index = 2) :
    ∃ s1, run s (pad ++ [Event.loop now 4]) = some s1 ∧
      s1.alarm_active = false ∧ s1.current_sequence_index = 0 := by
  obtain ⟨s1, e1, m1⟩ := feed_note s pad now 4 hq ha (by omega) (by omega)
  refine ⟨s1, e1, ?_⟩
  rw [hi] at m1
  unfold match_outcome at m1
  rcases m1 with ⟨n, _⟩ | ⟨_, _, c, _⟩ | ⟨_, _, _, a, b⟩ | ⟨_, c, _⟩
  · exact absurd n (by decide)
  · omega
  · exact ⟨a, b⟩
  · exact absurd (by decide) c

/-- A wrong note resets the progress and keeps the alarm active. -/
theorem feed_reset (s : State) (pad : List Event) (now : Nat) (d : Int)
    (hq : ∀ e ∈ pad, quiet e) (ha : s.alarm_active = true)
    (h0 : 0 ≤ s.current_sequence_index) (h3 : s.current_sequence_index < 3)
    (hn : d ≠ -1) (hd : correct_sequence_at s.current_sequence_index ≠ some d) :
    ∃ s1, run s (pad ++ [Event.loop now d]) = some s1 ∧
      s1.alarm_active = true ∧ s1.current_sequence_index = 0 := by
  obtain ⟨s1, e1, m1⟩ := feed_note s pad now d hq ha h0 h3
  refine ⟨s1, e1, ?_⟩
  unfold match_outcome at m1
  rcases m1 with ⟨n, _⟩ | ⟨_, c, _⟩ | ⟨_, c, _⟩ | ⟨_, _, a, b⟩
  · exact absurd n hn
  · exact absurd c hd
  · exact absurd c hd
  · exact ⟨a, b⟩

/-- The notes 0, 2, 4 fed to an active alarm with progress 0. -/
theorem feed_sequence (s : State) (p1 p2 p3 : List Event) (t1 t2 t3 : Nat)
    (hq1 : ∀ e ∈ p1, quiet e) (hq2 : ∀ e ∈ p2, quiet e) (hq3 : ∀ e ∈ p3, quiet e)
    (ha : s.alarm_active = true) (hi : s.current_sequence_index = 0) :
    ∃ s1 s2 s3,
      run s (p1 ++ [Event.loop t1 0]) = some s1 ∧
        s1.alarm_active = true ∧ s1.current_sequence_index = 1 ∧
      run s1 (p2 ++ [Event.loop t2 2]) = some s2 ∧
        s2.alarm_active = true ∧ s2.current_sequence_index = 2 ∧
      run s2 (p3 ++ [Event.loop t3 4]) = some s3 ∧
        s3.alarm_active = false ∧ s3.current_sequence_index = 0 := by
  obtain ⟨s1, e1, a1, i1⟩ :=
    feed_advance s p1 t1 0 0 hq1 ha hi (by decide) (by decide) (by decide) (by decide)
  obtain ⟨s2, e2, a2, i2⟩ :=
    feed_advance s1 p2 t2 1 2 hq2 a1 i1 (by decide) (by decide) (by decide) (by decide)
  obtain ⟨s3, e3, a3, i3⟩ := feed_complete s2 p3 t3 hq3 a2 i2
  exact ⟨s1, s2, s3, e1, a1, i1, e2, a2, i2, e3, a3, i3⟩

/-- C3: from an active alarm with progress 0, the notes 0, 2, 4 detected in that order
by main-loop iterations, with any button edges and any iterations that detect no note
in between, give progress 1, then progress 2, and after the third note alarm_active is
false and the progress is 0; on the same notes the reference matcher signals advanced,
advanced, completed. -/
theorem disarm_sequence_completes (s : State) (p1 p2 p3 : List Event) (t1 t2 t3 : Nat)
    (hq1 : ∀ e ∈ p1, quiet e) (hq2 : ∀ e ∈ p2, quiet e) (hq3 : ∀ e ∈ p3, quiet e)
    (ha : s.alarm_active = true) (hi : s.current_sequence_index = 0) :
    (∃ s1 s2 s3,
      run s (p1 ++ [Event.loop t1 0]) = some s1 ∧
        s1.alarm_active = true ∧ s1.current_sequence_index = 1 ∧
      run s1 (p2 ++ [Event.loop t2 2]) = some s2 ∧
        s2.alarm_active = true ∧ s2.current_sequence_index = 2 ∧
      run s2 (p3 ++ [Event.loop t3 4]) = some s3 ∧
        s3.alarm_active = false ∧ s3.current_sequence_index = 0) ∧
    (SequenceMatcher.on_note ⟨correct_sequence, 0⟩ (note_of 0)).2 = Transition.advanced ∧
    (SequenceMatcher.on_note ⟨correct_sequence, 1⟩ (note_of 2)).2 = Transition.advanced ∧
    (SequenceMatcher.on_note ⟨correct_sequence, 2⟩ (note_of 4)).2 = Transition.completed :=
  ⟨feed_sequence s p1 p2 p3 t1 t2 t3 hq1 hq2 hq3 ha hi, by decide, by decide, by decide⟩

/-- Witness of C3: the alarm of the initial state switched on, the three notes fed with a
silent iteration and a button edge in between. -/
theorem disarm_sequence_completes_witness :
    ∃ s1 s2 s3,
      run { init 0 with alarm_active := true } ([] ++ [Event.loop 1 0]) = some s1 ∧
        s1.alarm_active = true ∧ s1.current_sequence_index = 1 ∧
      run s1 ([Event.loop 2 (-1)] ++ [Event.loop 3 2]) = some s2 ∧
        s2.alarm_active = true ∧ s2.current_sequence_index = 2 ∧
      run s2 ([Event.button 5 4] ++ [Event.loop 5 4]) = some s3 ∧
        s3.alarm_active = false ∧ s3.current_sequence_index = 0 :=
  (disarm_sequence_completes { init 0 with alarm_active := true }
    [] [Event.loop 2 (-1)] [Event.button 5 4] 1 3 5
    (by decide) (by decide) (by decide) rfl rfl).1

/-- C4: from an active alarm with progress 0 the notes 0 then 3 give progress 1 and then
progress 0 with the alarm still active, and the notes 0, 2, 4 fed afterwards disarm the
alarm; more generally, from every progress within [0, 3) a note other than the expected
one resets the progress with the alarm active, and 0, 2, 4 fed afterwards disarm the alarm
(alarm_active false, progress 0). Button edges and iterations without a note may occur
in between. -/
theorem disarm_sequence_resettable (s : State) (p0 p1 p2 p3 : List Event)
    (t0 t1 t2 t3 : Nat) (d : Int)
    (hq0 : ∀ e ∈ p0, quiet e) (hq1 : ∀ e ∈ p1, quiet e) (hq2 : ∀ e ∈ p2, quiet e)
    (hq3 : ∀ e ∈ p3, quiet e) (ha : s.alarm_active = true) :
    (s.current_sequence_index = 0 →
      ∃ s1 s2 s3,
        run s (p0 ++ [Event.loop t0 0]) = some s1 ∧
          s1.alarm_active = true ∧ s1.current_sequence_index = 1 ∧
        run s1 (p1 ++ [Event.loop t1 3]) = some s2 ∧
          s2.alarm_active = true ∧ s2.current_sequence_index = 0 ∧
        run s2 (p1 ++ [Event.loop t1 0] ++ (p2 ++ [Event.loop t2 2])
            ++ (p3 ++ [Event.loop t3 4])) = some s3 ∧
          s3.alarm_active = false ∧ s3.current_sequence_index = 0) ∧
    (0 ≤ s.current_sequence_index → s.current_sequence_index < SEQUENCE_LENGTH →
      d ≠ -1 → correct_sequence_at s.current_sequence_index ≠ some d →
      ∃ s1 s2,
        run s (p0 ++ [Event.loop t0 d]) = some s1 ∧
          s1.alarm_active = true ∧ s1.current_sequence_index = 0 ∧
        run s1 (p1 ++ [Event.loop t1 0] ++ (p2 ++ [Event.loop t2 2])
            ++ (p3 ++ [Event.loop t3 4])) = some s2 ∧
          s2.alarm_active = false ∧ s2.current_sequence_index = 0) := by
  have chain : ∀ x : State, x.alarm_active = true → x.current_sequence_index = 0 →
      ∃ y, run x (p1 ++ [Event.loop t1 0] ++ (p2 ++ [Event.loop t2 2])
            ++ (p3 ++ [Event.loop t3 4])) = some y ∧
        y.alarm_active = false ∧ y.current_sequence_index = 0 := by
    intro x hx hxi
    obtain ⟨y1, y2, y3, e1, _, _, e2, _, _, e3, a3, i3⟩ :=
      feed_sequence x p1 p2 p3 t1 t2 t3 hq1 hq2 hq3 hx hxi
    refine ⟨y3, ?_, a3, i3⟩
    rw [run_append, run_append, e1]
    simp [e2, e3]
  constructor
  · intro hi
    obtain ⟨s1, e1, a1, i1⟩ :=
      feed_advance s p0 t0 0 0 hq0 ha hi (by decide) (by decide) (by decide) (by decide)
    obtain ⟨s2, e2, a2, i2⟩ :=
      feed_reset s1 p1 t1 3 hq1 a1 (by omega) (by omega) (by decide)
        (by rw [i1]; decide)
    obtain ⟨s3, e3, a3, i3⟩ := chain s2 a2 i2
    exact ⟨s1, s2, s3, e1, a1, i1, e2, a2, i2, e3, a3, i3⟩
  · intro h0 h3 hn hd
    obtain ⟨s1, e1, a1, i1⟩ := feed_reset s p0 t0 d hq0 ha h0 h3 hn hd
    obtain ⟨s2, e2, a2, i2⟩ := chain s1 a1 i1
    exact ⟨s1, s2, e1, a1, i1, e2, a2, i2⟩

/-- Witness of C4: with progress 2 the wrong note 7 resets the matcher, and 0, 2, 4
then disarm the alarm. -/
theorem disarm_sequence_resettable_witness :
    ∃ s1 s2,
      run { init 0 with alarm_active := true, current_sequence_index := 2 }
          ([] ++ [Event.loop 1 7]) = some s1 ∧
        s1.alarm_active = true ∧ s1.current_sequence_index = 0 ∧
      run s1 ([Event.loop 2 (-1)] ++ [Event.loop 3 0] ++ ([] ++ [Event.loop 4 2])
          ++ ([Event.button 6 5] ++ [Event.loop 6 4])) = some s2 ∧
        s2.alarm_active = false ∧ s2.current_sequence_index = 0 :=
  (disarm_sequence_resettable { init 0 with alarm_active := true, current_sequence_index := 2 }
    [] [Event.loop 2 (-1)] [] [Event.button 6 5] 1 3 4 6 7
    (by decide) (by decide) (by decide) (by decide) rfl).2
    (by decide) (by decide) (by decide) (by decide)

/-! ## The alarm is silenced by the sequence only -/

theorem correct_sequence_at_eq (i d : Int) (h0 : 0 ≤ i) (h3 : i < 3)
    (h : correct_sequence_at i = some d) :
    (i = 0 ∧ d = 0) ∨ (i = 1 ∧ d = 2) ∨ (i = 2 ∧ d = 4) := by
  have hi : i = 0 ∨ i = 1 ∨ i = 2 := by omega
  rcases hi with e | e | e <;> subst e <;>
    simp [correct_sequence_at, correct_sequence] at h <;> omega

theorem suffix_snoc (xs ys : List Int) (d : Int) (h : xs <:+ ys) :
    xs ++ [d] <:+ ys ++ [d] := by
  obtain ⟨t, rfl⟩ := h
  exact ⟨t, by simp⟩

theorem run_heard_fst (evs : List Event) :
    ∀ (s : State) (heard : List Int), (run_heard s heard evs).map Prod.fst = run s evs := by
  induction evs with
  | nil => intro s heard; rfl
  | cons e es ih =>
    intro s heard
    cases h : step s e with
    | none => simp [run_heard, run, h]
    | some s1 => simp [run_heard, run, h, ih]

/-- The matcher outcome keeps the link between the progress and the heard notes. -/
theorem outcome_heard (i d : Int) (a : Bool) (j : Int) (heard : List Int)
    (h0 : 0 ≤ i) (h3 : i < 3)
    (hx : i = 0 ∨ (i = 1 ∧ [0] <:+ heard) ∨ (i = 2 ∧ [0, 2] <:+ heard))
    (m : match_outcome i d a j) :
    (0 ≤ j ∧ j < 3 ∧
      (a = true → j = 0 ∨
        (j = 1 ∧ [0] <:+ (if d ≠ -1 then heard ++ [d] else heard)) ∨
        (j = 2 ∧ [0, 2] <:+ (if d ≠ -1 then heard ++ [d] else heard)))) ∧
    (a = false → [0, 2, 4] <:+ (if d ≠ -1 then heard ++ [d] else heard)) ∧
    ((d = -1 ∨ correct_sequence_at i ≠ some d) → a = true) := by
  unfold match_outcome at m
  rcases m with ⟨n, a1, j1⟩ | ⟨n, c, k, a1, j1⟩ | ⟨n, c, k, a1, j1⟩ | ⟨n, c, a1, j1⟩
  · subst n a1 j1
    refine ⟨⟨h0, h3, fun _ => ?_⟩, fun h => absurd h (by simp), fun _ => rfl⟩
    simpa using hx
  · rw [if_pos n]
    subst a1 j1
    refine ⟨⟨by omega, by omega, fun _ => ?_⟩, fun h => absurd h (by simp), fun _ => rfl⟩
    rcases correct_sequence_at_eq i d h0 h3 c with ⟨x, y⟩ | ⟨x, y⟩ | ⟨x, y⟩
    · subst x y
      exact Or.inr (Or.inl ⟨rfl, heard, rfl⟩)
    · subst x y
      have hs : [0] <:+ heard := by
        rcases hx with z | ⟨_, z⟩ | ⟨z, _⟩
        · omega
        · exact z
        · omega
      exact Or.inr (Or.inr ⟨rfl, suffix_snoc [0] heard 2 hs⟩)
    · omega
  · rw [if_pos n]
    subst a1 j1
    refine ⟨⟨by omega, by omega, fun h => absurd h (by simp)⟩, fun _ => ?_, fun h => ?_⟩
    · rcases correct_sequence_at_eq i d h0 h3 c with ⟨x, y⟩ | ⟨x, y⟩ | ⟨x, y⟩
      · omega
      · omega
      · subst x y
        have hs : [0, 2] <:+ heard := by
          rcases hx with z | ⟨z, _⟩ | ⟨_, z⟩
          · omega
          · omega
          · exact z
        exact suffix_snoc [0, 2] heard 4 hs
    · rcases h with h | h
      · exact absurd h n
      · exact absurd c h
  · subst a1 j1
    exact ⟨⟨by omega, by omega, fun _ => Or.inl rfl⟩, fun h => absurd h (by simp), fun _ => rfl⟩

/-- What one iteration does to the alarm, the progress and the heard notes. -/
theorem loop_heard (s : State) (heard : List Int) (now : Nat) (d : Int)
    (h : heard_inv s heard) :
    ∃ s1, main_loop_iteration s now d = some s1 ∧
      heard_inv s1 (step_heard s heard (Event.loop now d)) ∧
      (s.alarm_active = true → s1.alarm_active = false →
        [0, 2, 4] <:+ step_heard s heard (Event.loop now d)) ∧
      (s.alarm_active = true →
        (d = -1 ∨ correct_sequence_at s.current_sequence_index ≠ some d) →
        s1.alarm_active = true) := by
  obtain ⟨h0, h3, hh⟩ := h
  obtain ⟨c1, c2, _, _⟩ := clock_update_alarm s now
  obtain ⟨s1, e1, _, _, e4⟩ := main_loop_iteration_cases s now d h0 h3
  refine ⟨s1, e1, ?_⟩
  simp only [step_heard]
  rcases alarm_trigger_cases (clock_update s now) now with ⟨_, f1, f2, f3, _, _⟩ | ⟨_, t⟩
  · -- the alarm is activated by this iteration
    have hs : s.alarm_active = false := by rw [← c1]; exact f1
    rw [f2, f3] at e4
    simp only [f1, f2, and_self, if_true, true_and]
    rcases e4 with ⟨a1, _⟩ | ⟨_, m⟩
    · exact absurd a1 (by simp)
    · obtain ⟨⟨o1, o2, o3⟩, _, _⟩ :=
        outcome_heard 0 d s1.alarm_active s1.current_sequence_index [] (by omega) (by omega)
          (Or.inl rfl) m
      refine ⟨⟨o1, o2, o3⟩, fun x => ?_, fun x => ?_⟩
      · rw [hs] at x; exact absurd x (by simp)
      · rw [hs] at x; exact absurd x (by simp)
  · -- no activation in this iteration
    rw [t, c1, c2] at e4
    simp only [t, c1]
    have hno : ¬ (s.alarm_active = false ∧ s.alarm_active = true) := by
      intro ⟨x, y⟩; rw [x] at y; exact absurd y (by simp)
    simp only [hno, if_false]
    rcases e4 with ⟨a1, a2, a3⟩ | ⟨a1, m⟩
    · have hna : ¬ (s.alarm_active = true ∧ d ≠ -1) := by
        intro ⟨x, _⟩; rw [a1] at x; exact absurd x (by simp)
      rw [if_neg hna]
      refine ⟨⟨by rw [a3]; exact h0, by rw [a3]; exact h3, fun x => ?_⟩, fun x => ?_, fun x => ?_⟩
      · rw [a2] at x; exact absurd x (by simp)
      · rw [a1] at x; exact absurd x (by simp)
      · rw [a1] at x; exact absurd x (by simp)
    · obtain ⟨⟨o1, o2, o3⟩, o4, o5⟩ :=
        outcome_heard s.current_sequence_index d s1.alarm_active s1.current_sequence_index
          heard h0 h3 (hh a1) m
      simp only [a1, true_and]
      exact ⟨⟨o1, o2, o3⟩, fun _ => o4, fun _ => o5⟩

theorem run_heard_inv (evs : List Event) :
    ∀ (s : State) (heard : List Int), heard_inv s heard →
      ∃ s1 h1, run_heard s heard evs = some (s1, h1) ∧ heard_inv s1 h1 := by
  induction evs with
  | nil => intro s heard h; exact ⟨s, heard, rfl, h⟩
  | cons e es ih =>
    intro s heard h
    have hstep : ∃ s1, step s e = some s1 ∧ heard_inv s1 (step_heard s heard e) := by
      cases e with
      | button gpio now =>
        obtain ⟨g1, g2⟩ := gpio_irq_handler_alarm s gpio now
        refine ⟨_, rfl, ?_⟩
        simp only [step_heard, heard_inv, g1, g2]
        exact h
      | loop now d =>
        obtain ⟨s1, e1, i1, _⟩ := loop_heard s heard now d h
        exact ⟨s1, e1, i1⟩
    obtain ⟨s1, e1, i1⟩ := hstep
    obtain ⟨s2, h2, e2, i2⟩ := ih s1 _ i1
    exact ⟨s2, h2, by simp [run_heard, e1, e2], i2⟩

theorem init_heard_inv (t0 : Nat) : heard_inv (init t0) [] := by
  simp [heard_inv, init]

/-- C1: every finite interleaving of main-loop iterations and button edges from the
initial state runs to a state `s` with a list `heard` of the notes detected (other than
-1) since the alarm last became active, and from there: an iteration that takes
alarm_active from true to false has heard, as its last three notes since the activation,
exactly 0, 2, 4 in that order; an iteration whose detector result is "no note" or a wrong
note leaves alarm_active true; and a button edge never changes alarm_active. -/
theorem alarm_silenced_only_by_sequence (t0 : Nat) (evs : List Event) :
    ∃ s heard, run_heard (init t0) [] evs = some (s, heard) ∧ run (init t0) evs = some s ∧
      (∀ now d, ∃ s1, main_loop_iteration s now d = some s1 ∧
        (s.alarm_active = true → s1.alarm_active = false →
          [0, 2, 4] <:+ step_heard s heard (Event.loop now d)) ∧
        (s.alarm_active = true →
          (d = -1 ∨ correct_sequence_at s.current_sequence_index ≠ some d) →
          s1.alarm_active = true)) ∧
      (∀ gpio now, (gpio_irq_handler s gpio now).alarm_active = s.alarm_active) := by
  obtain ⟨s, heard, e, i⟩ := run_heard_inv evs (init t0) [] (init_heard_inv t0)
  refine ⟨s, heard, e, ?_, ?_, ?_⟩
  · rw [← run_heard_fst evs (init t0) [], e]
    rfl
  · intro now d
    obtain ⟨s1, e1, _, p1, p2⟩ := loop_heard s heard now d i
    exact ⟨s1, e1, p1, p2⟩
  · intro gpio now
    exact (gpio_irq_handler_alarm s gpio now).1

/-! ## Retriggering within the matching second -/

theorem fires_of_match (s : State) (now : Nat) (hm : time_matches s now = true) :
    fires s now = !s.alarm_active := by
  have c1 := (clock_update_alarm s now).1
  simp only [time_matches, Bool.and_eq_true] at hm
  obtain ⟨⟨m1, m2⟩, m3⟩ := hm
  simp only [fires, alarm_condition, m1, m2, m3, Bool.and_true, c1]

/-- In a run whose iterations all see the matching time, the trigger fires in an
iteration exactly when the alarm is inactive at its start. -/
theorem fire_trace_eq (evs : List Event) :
    ∀ s : State, Inv s → all_match s evs = true →
      fire_trace s evs = ((!s.alarm_active) :: disarm_trace s evs).dropLast := by
  induction evs with
  | nil => intro s _ _; rfl
  | cons e es ih =>
    intro s hI hm
    cases e with
    | button gpio now =>
      obtain ⟨s1, e1, hI1⟩ := step_inv s (Event.button gpio now) hI
      have hs : s1 = gpio_irq_handler s gpio now := by
        simp only [step, Option.some.injEq] at e1
        exact e1.symm
      subst hs
      have r := ih _ hI1 (by simpa [all_match] using hm)
      rw [(gpio_irq_handler_alarm s gpio now).1] at r
      simpa [fire_trace, disarm_trace] using r
    | loop now d =>
      obtain ⟨s1, e1, hI1⟩ := step_inv s (Event.loop now d) hI
      simp only [step] at e1
      simp only [all_match, e1, Bool.and_eq_true] at hm
      have r := ih s1 hI1 hm.2
      simp only [fire_trace, disarm_trace, e1, fires_of_match s now hm.1, r,
        List.dropLast_cons₂]

/-- C6 as amended: in a run of iterations and button edges that starts with the alarm
inactive and in which every iteration sees currentTime equal to alarmTime in hour and
minute with sec = 0, the trigger fires in the first iteration, and in a later iteration
exactly when the iteration before it ended with the alarm disarmed; so when no iteration
of the run disarms the alarm, it fires in the first iteration only. -/
theorem alarm_fires_once_until_disarmed (s : State) (evs : List Event) (hI : Inv s)
    (ha : s.alarm_active = false) (hm : all_match s evs = true) :
    fire_trace s evs = (true :: disarm_trace s evs).dropLast ∧
    (fire_trace s evs ≠ [] → (fire_trace s evs).head? = some true) ∧
    ((∀ b ∈ disarm_trace s evs, b = false) → ∀ b ∈ (fire_trace s evs).tail, b = false) := by
  have key : fire_trace s evs = (true :: disarm_trace s evs).dropLast := by
    have r := fire_trace_eq evs s hI hm
    rw [ha] at r
    exact r
  refine ⟨key, ?_, ?_⟩
  · rw [key]
    cases disarm_trace s evs with
    | nil => intro h; exact absurd rfl h
    | cons x xs => intro _; rfl
  · rw [key]
    cases disarm_trace s evs with
    | nil => intro _ b hb; simp at hb
    | cons x xs =>
      intro hall b hb
      rw [List.dropLast_cons₂, List.tail_cons] at hb
      exact hall b (List.mem_of_mem_dropLast hb)

/-- Witness of C6 as amended: in SetClock mode at 07:00:00 a run with a wrong note fires
the trigger in its first iteration only. -/
theorem alarm_fires_once_until_disarmed_witness :
    fire_trace at_alarm_time wrong_note_run
      = (true :: disarm_trace at_alarm_time wrong_note_run).dropLast ∧
    (fire_trace at_alarm_time wrong_note_run ≠ [] →
      (fire_trace at_alarm_time wrong_note_run).head? = some true) ∧
    ((∀ b ∈ disarm_trace at_alarm_time wrong_note_run, b = false) →
      ∀ b ∈ (fire_trace at_alarm_time wrong_note_run).tail, b = false) :=
  alarm_fires_once_until_disarmed at_alarm_time wrong_note_run (by decide) (by decide)
    (by decide)

/-- Counterexample to C6 as stated: the edges of `set_clock_to_alarm` bring the initial
state to SetClock mode with currentTime = alarmTime = 07:00:00 and the alarm inactive;
in the four following iterations the time matches throughout, the detector returns
0, 2, 4 and then no note, and the trigger fires in the first and again in the fourth
iteration. -/
theorem alarm_retriggers_after_disarm :
    run (init 0) set_clock_to_alarm = some at_alarm_time ∧
    at_alarm_time.alarm_active = false ∧
    all_match at_alarm_time retrigger_run = true ∧
    fire_trace at_alarm_time retrigger_run = [true, false, false, true] ∧
    (fire_trace at_alarm_time retrigger_run).count true = 2 := by
  set_option maxRecDepth 100000 in decide

/-! ## Note selection -/

theorem getD_mem {K : Type} [LinearOrderedField K] (l : List K) (n : Nat)
    (h : n < l.length) : l.getD n 0 ∈ l := by
  rw [List.getD_eq_getElem l 0 h]
  exact List.getElem_mem h

theorem select_loop_inv {K : Type} [LinearOrderedField K] (rest : List K) :
    ∀ (pre : List K) (m : K) (k : Int), select_inv pre m k →
      select_inv (pre ++ rest) (select_loop rest (pre.length : Int) (m, k)).1
        (select_loop rest (pre.length : Int) (m, k)).2 := by
  induction rest with
  | nil => intro pre m k h; simpa [select_loop] using h
  | cons p ps ih =>
    intro pre m k h
    have hm0 : 0 ≤ m := by
      rcases h with ⟨_, h2, _⟩ | ⟨_, _, _, _, h5, _⟩
      · rw [h2]
      · exact le_of_lt h5
    have hle : ∀ q ∈ pre, q ≤ m := by
      rcases h with ⟨_, h2, h3⟩ | ⟨_, _, _, _, _, h6, _⟩
      · rw [h2]; exact h3
      · exact h6
    have hlen : ((pre ++ [p]).length : Int) = (pre.length : Int) + 1 := by simp
    have happ : pre ++ p :: ps = (pre ++ [p]) ++ ps := by simp
    rw [select_loop]
    split_ifs with hp
    · -- the new power is strictly larger: it becomes the maximum
      have hnew : select_inv (pre ++ [p]) p (pre.length : Int) := by
        right
        refine ⟨pre.length, rfl, by simp, by simp, lt_of_le_of_lt hm0 hp, ?_, ?_⟩
        · intro q hq
          rcases List.mem_append.1 hq with hq | hq
          · exact le_of_lt (lt_of_le_of_lt (hle q hq) hp)
          · simp at hq; rw [hq]
        · intro j hj
          rw [List.getD_append pre [p] 0 j hj]
          exact lt_of_le_of_lt (hle _ (getD_mem pre j hj)) hp
      have r := ih (pre ++ [p]) p (pre.length : Int) hnew
      rw [hlen, ← happ] at r
      exact r
    · -- the maximum and the selected index are kept
      have hpm : p ≤ m := not_lt.1 hp
      have hnew : select_inv (pre ++ [p]) m k := by
        rcases h with ⟨h1, h2, h3⟩ | ⟨n, h1, h2, h3, h4, h5, h6⟩
        · left
          refine ⟨h1, h2, ?_⟩
          intro q hq
          rcases List.mem_append.1 hq with hq | hq
          · exact h3 q hq
          · simp at hq; rw [hq, ← h2]; exact hpm
        · right
          refine ⟨n, h1, by simp; omega, ?_, h4, ?_, ?_⟩
          · rw [List.getD_append pre [p] 0 n h2]; exact h3
          · intro q hq
            rcases List.mem_append.1 hq with hq | hq
            · exact h5 q hq
            · simp at hq; rw [hq]; exact hpm
          · intro j hj
            rw [List.getD_append pre [p] 0 j (by omega)]
            exact h6 j hj
      have r := ih (pre ++ [p]) m k hnew
      rw [hlen, ← happ] at r
      exact r

/-- The selection loop run on all the powers. -/
theorem select_loop_spec {K : Type} [LinearOrderedField K] (powers : List K) :
    select_inv powers (select_loop powers 0 (0, -1)).1 (select_loop powers 0 (0, -1)).2 := by
  have h := select_loop_inv powers [] 0 (-1) (Or.inl ⟨rfl, rfl, by simp⟩)
  simpa using h

/-- C9: the note-selection step, as a function of the list of per-key powers (of any
length, in particular the 8 powers that detect_note computes) and of a noise floor that
is not negative (NOISE_FLOOR is 2), returns -1 exactly when no power exceeds the noise
floor; otherwise it returns the smallest index whose power is the maximum; the result
is always -1 or an index below the number of powers. -/
theorem select_note_first_maximum (powers : List ℚ) (noise_floor : ℚ)
    (hnf : 0 ≤ noise_floor) :
    (∀ (cosf : ℚ → ℚ) (samples : Nat → ℚ),
      detect_window cosf noise_floor samples
        = select_note (keys.map fun k => goertzel cosf samples k.freq) noise_floor ∧
      (keys.map fun k => goertzel cosf samples k.freq).length = 8) ∧
    (select_note powers noise_floor = -1 ↔ ∀ p ∈ powers, p ≤ noise_floor) ∧
    (select_note powers noise_floor ≠ -1 →
      ∃ k : Nat, select_note powers noise_floor = (k : Int) ∧ k < powers.length ∧
        (∀ j, j < powers.length → powers.getD j 0 ≤ powers.getD k 0) ∧
        (∀ j, j < k → powers.getD j 0 < powers.getD k 0)) ∧
    (select_note powers noise_floor = -1 ∨
      (0 ≤ select_note powers noise_floor ∧
        select_note powers noise_floor < (powers.length : Int))) := by
  have h := select_loop_spec powers
  have hs : select_note powers noise_floor =
      if (select_loop powers 0 (0, -1)).1 > noise_floor then (select_loop powers 0 (0, -1)).2
      else -1 := rfl
  generalize (select_loop powers 0 (0, -1)).1 = m at h hs
  generalize (select_loop powers 0 (0, -1)).2 = k at h hs
  refine ⟨fun _ _ => ⟨rfl, rfl⟩, ?_⟩
  rw [hs]
  rcases h with ⟨h1, h2, h3⟩ | ⟨n, h1, h2, h3, h4, h5, h6⟩
  · -- nothing selected
    subst h1 h2
    have hnot : ¬ (0 : ℚ) > noise_floor := not_lt.2 hnf
    rw [if_neg hnot]
    refine ⟨⟨fun _ p hp => le_trans (h3 p hp) hnf, fun _ => rfl⟩, fun hc => absurd rfl hc,
      Or.inl rfl⟩
  · subst h1
    by_cases hgt : m > noise_floor
    · rw [if_pos hgt]
      refine ⟨⟨fun hc => ?_, fun hall => ?_⟩, fun _ => ?_, Or.inr ⟨by omega, by omega⟩⟩
      · omega
      · have hmem := hall _ (getD_mem powers n h2)
        rw [h3] at hmem
        exact absurd hgt (not_lt.2 hmem)
      · refine ⟨n, rfl, h2, fun j hj => ?_, fun j hj => ?_⟩
        · rw [h3]; exact h5 _ (getD_mem powers j hj)
        · rw [h3]; exact h6 j hj
    · rw [if_neg hgt]
      refine ⟨⟨fun _ p hp => le_trans (h5 p hp) (not_lt.1 hgt), fun _ => rfl⟩,
        fun hc => absurd rfl hc, Or.inl rfl⟩

/-- Witness of C9: with the noise floor of the program and two keys tied at the largest
power, the first of them (index 2) is returned. -/
theorem select_note_first_maximum_witness :
    select_note [0, 3, 5, 5, 1, 0, 0, 0] NOISE_FLOOR = 2 ∧
    (select_note [0, 3, 5, 5, 1, 0, 0, 0] NOISE_FLOOR = -1 ↔
      ∀ p ∈ ([0, 3, 5, 5, 1, 0, 0, 0] : List ℚ), p ≤ NOISE_FLOOR) :=
  ⟨by decide,
   (select_note_first_maximum [0, 3, 5, 5, 1, 0, 0, 0] NOISE_FLOOR (by decide)).2.1⟩

/-! ## Silent and constant windows -/

theorem goertzel_loop_zero (samples : Nat → ℚ) (coeff : ℚ) (n : Nat)
    (hz : ∀ i, i < n → samples i = 0) : goertzel_loop samples coeff n = (0, 0) := by
  induction n with
  | zero => rfl
  | succ k ih =>
    have hk := ih (fun i hi => hz i (by omega))
    simp only [goertzel_loop, hk, hz k (by omega)]
    simp

theorem goertzel_zero (cosf : ℚ → ℚ) (samples : Nat → ℚ) (f : ℚ)
    (hz : ∀ i, i < NUM_SAMPLES → samples i = 0) : goertzel cosf samples f = 0 := by
  simp only [goertzel, goertzel_loop_zero samples _ NUM_SAMPLES hz, goertzel_power]
  simp

theorem avg_loop_const (samples : Nat → ℚ) (v : ℚ) (n : Nat)
    (hc : ∀ i, i < n → samples i = v) : avg_loop samples n = (n : ℚ) * v := by
  induction n with
  | zero => simp [avg_loop]
  | succ k ih =>
    have hk := ih (fun i hi => hc i (by omega))
    simp only [avg_loop, hk, hc k (by omega)]
    push_cast
    ring

theorem sample_window_const (adc_read : Nat → Nat) (c : Nat)
    (hc : ∀ i, i < NUM_SAMPLES → adc_read i = c) :
    ∀ i, i < NUM_SAMPLES → sample_window adc_read i = 0 := by
  intro i hi
  have havg : avg_loop (fun i => (adc_read i : ℚ) / 4095) NUM_SAMPLES
      = (NUM_SAMPLES : ℚ) * ((c : ℚ) / 4095) :=
    avg_loop_const _ _ NUM_SAMPLES (fun j hj => by simp only [hc j hj])
  have hn : (NUM_SAMPLES : ℚ) ≠ 0 := by simp [NUM_SAMPLES]
  simp only [sample_window, remove_mean, havg, hc i hi]
  field_simp
  ring

theorem select_loop_nonpos (powers : List ℚ) :
    ∀ i : Int, (∀ p ∈ powers, p ≤ 0) → select_loop powers i (0, -1) = (0, -1) := by
  induction powers with
  | nil => intro i _; rfl
  | cons p ps ih =>
    intro i h
    have hp : ¬ p > 0 := not_lt.2 (h p (List.mem_cons_self p ps))
    rw [select_loop, if_neg hp]
    exact ih (i + 1) (fun q hq => h q (List.mem_cons_of_mem p hq))

theorem detect_window_zero (cosf : ℚ → ℚ) (noise_floor : ℚ) (samples : Nat → ℚ)
    (hz : ∀ i, i < NUM_SAMPLES → samples i = 0) :
    detect_window cosf noise_floor samples = -1 := by
  have hl : select_loop (keys.map fun k => goertzel cosf samples k.freq) 0 (0, -1) = (0, -1) := by
    apply select_loop_nonpos
    intro p hp
    obtain ⟨k, _, rfl⟩ := List.mem_map.1 hp
    rw [goertzel_zero cosf samples k.freq hz]
  simp only [detect_window, select_note, Rat.cast_id, hl]
  split_ifs <;> rfl

/-- C10: for a window whose NUM_SAMPLES samples are all zero the Goertzel power is 0 at
every frequency, in particular at the eight of the catalog, and the detector returns -1
for every noise floor (above 0 or not); in exact arithmetic the mean-subtraction step turns every
constant window of ADC readings into the all-zero window, so detect_note returns -1 on
it as well. -/
theorem silent_window_no_note (cosf : ℚ → ℚ) (noise_floor : ℚ) (samples : Nat → ℚ)
    (adc_read : Nat → Nat) (c : Nat)
    (hz : ∀ i, i < NUM_SAMPLES → samples i = 0)
    (hc : ∀ i, i < NUM_SAMPLES → adc_read i = c) :
    (∀ f : ℚ, goertzel cosf samples f = 0) ∧
    (∀ k ∈ keys, goertzel cosf samples k.freq = 0) ∧
    detect_window cosf noise_floor samples = -1 ∧
    (∀ i, i < NUM_SAMPLES → sample_window adc_read i = 0) ∧
    (∀ k ∈ keys, goertzel cosf (sample_window adc_read) k.freq = 0) ∧
    detect_note cosf noise_floor adc_read = -1 := by
  have hw := sample_window_const adc_read c hc
  exact ⟨fun f => goertzel_zero cosf samples f hz,
    fun k _ => goertzel_zero cosf samples k.freq hz,
    detect_window_zero cosf noise_floor samples hz,
    hw,
    fun k _ => goertzel_zero cosf (sample_window adc_read) k.freq hw,
    detect_window_zero cosf noise_floor (sample_window adc_read) hw⟩

/-- Witness of C10: the silent window and the ADC stuck at mid-scale, with the noise
floor of the program and a constant standing for `cosf`. -/
theorem silent_window_no_note_witness :
    detect_window (fun _ => 1 / 2) NOISE_FLOOR (fun _ => 0) = -1 ∧
    detect_note (fun _ => 1 / 2) NOISE_FLOOR (fun _ => 2048) = -1 :=
  have h := silent_window_no_note (fun _ => 1 / 2) NOISE_FLOOR (fun _ => 0) (fun _ => 2048) 2048
    (fun _ _ => rfl) (fun _ _ => rfl)
  ⟨h.2.2.1, h.2.2.2.2.2⟩

/-! ## Button edges -/

theorem mode_step_eq (m : Mode) : Mode.ofInt ((m.toInt + 1).tmod 3) = mode_cycle m := by
  cases m <;> rfl

theorem tmod_succ_eq (x n : Int) (h0 : 0 ≤ x) (hn : 0 < n) : (x + 1).tmod n = (x + 1) % n :=
  Int.tmod_eq_emod (by omega) (by omega)

/-- A combo edge of Button1. -/
theorem handler_button1_combo (s : State) (now : Nat)
    (h : absolute_time_diff_us s.last_press_time_button2 now < 100000) :
    gpio_irq_handler s BUTTON_PIN1 now
      = { s with mode := mode_cycle s.mode, last_press_time_button1 := now } := by
  simp only [gpio_irq_handler, if_true, h, mode_step_eq]

/-- A combo edge of Button2. -/
theorem handler_button2_combo (s : State) (now : Nat)
    (h : absolute_time_diff_us s.last_press_time_button1 now < 100000) :
    gpio_irq_handler s BUTTON_PIN2 now
      = { s with mode := mode_cycle s.mode, last_press_time_button2 := now } := by
  have hne : ¬ BUTTON_PIN2 = BUTTON_PIN1 := by decide
  simp only [gpio_irq_handler, if_true, h, mode_step_eq, hne, if_false]

/-- A single edge of Button1. -/
theorem handler_button1_single (s : State) (now : Nat)
    (hc : in_range s.currentTime) (ha : in_range s.alarmTime)
    (h : 100000 ≤ absolute_time_diff_us s.last_press_time_button2 now) :
    gpio_irq_handler s BUTTON_PIN1 now
      = { single_press1 s with last_press_time_button1 := now } := by
  have hn : ¬ absolute_time_diff_us s.last_press_time_button2 now < 100000 := not_lt.2 h
  have e1 := tmod_succ_eq s.currentTime.hour 24 hc.1 (by omega)
  have e2 := tmod_succ_eq s.alarmTime.hour 24 ha.1 (by omega)
  simp only [gpio_irq_handler, if_true, hn, if_false, single_press1, e1, e2]
  cases hm : s.mode <;> simp

/-- A single edge of Button2. -/
theorem handler_button2_single (s : State) (now : Nat)
    (hc : in_range s.currentTime) (ha : in_range s.alarmTime)
    (h : 100000 ≤ absolute_time_diff_us s.last_press_time_button1 now) :
    gpio_irq_handler s BUTTON_PIN2 now
      = { single_press2 s with last_press_time_button2 := now } := by
  have hne : ¬ BUTTON_PIN2 = BUTTON_PIN1 := by decide
  have hn : ¬ absolute_time_diff_us s.last_press_time_button1 now < 100000 := not_lt.2 h
  have e1 := tmod_succ_eq s.currentTime.min 60 hc.2.2.1 (by omega)
  have e2 := tmod_succ_eq s.alarmTime.min 60 ha.2.2.1 (by omega)
  simp only [gpio_irq_handler, if_true, hn, if_false, single_press2, e1, e2, hne]
  cases hm : s.mode <;> simp

theorem single_press1_range (s : State) (hc : in_range s.currentTime)
    (ha : in_range s.alarmTime) :
    in_range (single_press1 s).currentTime ∧ in_range (single_press1 s).alarmTime := by
  obtain ⟨h0, h1, m0, m1, s0, s1⟩ := hc
  obtain ⟨ah0, ah1, am0, am1, as0, as1⟩ := ha
  unfold single_press1
  cases s.mode <;> simp only [in_range] <;> omega

theorem single_press2_range (s : State) (hc : in_range s.currentTime)
    (ha : in_range s.alarmTime) :
    in_range (single_press2 s).currentTime ∧ in_range (single_press2 s).alarmTime := by
  obtain ⟨h0, h1, m0, m1, s0, s1⟩ := hc
  obtain ⟨ah0, ah1, am0, am1, as0, as1⟩ := ha
  unfold single_press2
  cases s.mode <;> simp only [in_range] <;> omega

/-- C11: on a state whose clock values are in range, a button edge that is not a combo
(the other button's recorded edge is at least 100 ms old) applies the single-button
action of the current mode and records its own timestamp: Button1 sets
hour := (hour + 1) mod 24 and Button2 sets min := (min + 1) mod 60, on currentTime in
SetClock and on alarmTime in SetAlarm, and no clock field changes in Normal; the mode,
all other clock fields (no carry), alarm_active and the sequence progress are unchanged.
Two edges at least 100 ms apart each apply their own increment. -/
theorem single_edge_action (s : State) (now t1 t2 : Nat)
    (hc : in_range s.currentTime) (ha : in_range s.alarmTime) :
    (100000 ≤ absolute_time_diff_us s.last_press_time_button2 now →
      gpio_irq_handler s BUTTON_PIN1 now
        = { single_press1 s with last_press_time_button1 := now }) ∧
    (100000 ≤ absolute_time_diff_us s.last_press_time_button1 now →
      gpio_irq_handler s BUTTON_PIN2 now
        = { single_press2 s with last_press_time_button2 := now }) ∧
    (s.mode = .MODE_NORMAL → single_press1 s = s ∧ single_press2 s = s) ∧
    (s.mode = .MODE_SET_CLOCK →
      single_press1 s = { s with currentTime :=
        ⟨(s.currentTime.hour + 1) % 24, s.currentTime.min, s.currentTime.sec⟩ } ∧
      single_press2 s = { s with currentTime :=
        ⟨s.currentTime.hour, (s.currentTime.min + 1) % 60, s.currentTime.sec⟩ }) ∧
    (s.mode = .MODE_SET_ALARM →
      single_press1 s = { s with alarmTime :=
        ⟨(s.alarmTime.hour + 1) % 24, s.alarmTime.min, s.alarmTime.sec⟩ } ∧
      single_press2 s = { s with alarmTime :=
        ⟨s.alarmTime.hour, (s.alarmTime.min + 1) % 60, s.alarmTime.sec⟩ }) ∧
    (100000 ≤ absolute_time_diff_us s.last_press_time_button2 t1 →
      100000 ≤ absolute_time_diff_us t1 t2 →
      gpio_irq_handler (gpio_irq_handler s BUTTON_PIN1 t1) BUTTON_PIN2 t2
        = { single_press2 (single_press1 s) with
            last_press_time_button1 := t1, last_press_time_button2 := t2 }) ∧
    (100000 ≤ absolute_time_diff_us s.last_press_time_button1 t1 →
      100000 ≤ absolute_time_diff_us t1 t2 →
      gpio_irq_handler (gpio_irq_handler s BUTTON_PIN2 t1) BUTTON_PIN1 t2
        = { single_press1 (single_press2 s) with
            last_press_time_button2 := t1, last_press_time_button1 := t2 }) := by
  refine ⟨handler_button1_single s now hc ha, handler_button2_single s now hc ha,
    ?_, ?_, ?_, ?_, ?_⟩
  · intro hm
    simp [single_press1, single_press2, hm]
  · intro hm
    simp [single_press1, single_press2, hm]
  · intro hm
    simp [single_press1, single_press2, hm]
  · intro h1 h2
    obtain ⟨r1, r2⟩ := single_press1_range s hc ha
    rw [handler_button1_single s t1 hc ha h1]
    have e := handler_button2_single
      { single_press1 s with last_press_time_button1 := t1 } t2 r1 r2 h2
    rw [e]
    obtain ⟨mode, ct, alt, act, actt, idx, l1, l2, lu, lr, lg⟩ := s
    cases mode <;> rfl
  · intro h1 h2
    obtain ⟨r1, r2⟩ := single_press2_range s hc ha
    rw [handler_button2_single s t1 hc ha h1]
    have e := handler_button1_single
      { single_press2 s with last_press_time_button2 := t1 } t2 r1 r2 h2
    rw [e]
    obtain ⟨mode, ct, alt, act, actt, idx, l1, l2, lu, lr, lg⟩ := s
    cases mode <;> rfl

/-- Witness of C11: in SetClock mode at 23:59:30, Button1 gives 00:59:30 and Button2
gives 23:00:30. -/
theorem single_edge_action_witness :
    gpio_irq_handler { init 0 with mode := .MODE_SET_CLOCK, currentTime := ⟨23, 59, 30⟩ }
        BUTTON_PIN1 1000000
      = { init 0 with mode := .MODE_SET_CLOCK, currentTime := ⟨0, 59, 30⟩,
                      last_press_time_button1 := 1000000 } ∧
    gpio_irq_handler { init 0 with mode := .MODE_SET_CLOCK, currentTime := ⟨23, 59, 30⟩ }
        BUTTON_PIN2 1000000
      = { single_press2 { init 0 with mode := .MODE_SET_CLOCK, currentTime := ⟨23, 59, 30⟩ }
          with last_press_time_button2 := 1000000 } :=
  ⟨by decide,
   (single_edge_action { init 0 with mode := .MODE_SET_CLOCK, currentTime := ⟨23, 59, 30⟩ }
      1000000 0 0 (by decide) (by decide)).2.1 (by decide)⟩

theorem mode_cycle_period (m : Mode) :
    mode_cycle (mode_cycle (mode_cycle m)) = m ∧ mode_cycle m ≠ m ∧
      mode_cycle (mode_cycle m) ≠ m := by
  cases m <;> decide

/-- Every handler call records `now` as the timestamp of its own button. -/
theorem handler_records_stamp (s : State) (now : Nat) :
    (gpio_irq_handler s BUTTON_PIN1 now).last_press_time_button1 = now ∧
    (gpio_irq_handler s BUTTON_PIN2 now).last_press_time_button2 = now := by
  have hne : ¬ BUTTON_PIN2 = BUTTON_PIN1 := by decide
  constructor
  · simp only [gpio_irq_handler, if_true]
  · simp only [gpio_irq_handler, if_true, hne, if_false]

/-- An edge that is not a combo keeps the mode and the timestamp of the other button. -/
theorem handler_single_mode (s : State) (now : Nat) :
    (100000 ≤ absolute_time_diff_us s.last_press_time_button2 now →
      (gpio_irq_handler s BUTTON_PIN1 now).mode = s.mode ∧
      (gpio_irq_handler s BUTTON_PIN1 now).last_press_time_button2
        = s.last_press_time_button2) ∧
    (100000 ≤ absolute_time_diff_us s.last_press_time_button1 now →
      (gpio_irq_handler s BUTTON_PIN2 now).mode = s.mode ∧
      (gpio_irq_handler s BUTTON_PIN2 now).last_press_time_button1
        = s.last_press_time_button1) := by
  have hne : ¬ BUTTON_PIN2 = BUTTON_PIN1 := by decide
  constructor
  · intro h
    have hn : ¬ absolute_time_diff_us s.last_press_time_button2 now < 100000 := not_lt.2 h
    simp only [gpio_irq_handler, if_true, hn, if_false]
    split_ifs <;> exact ⟨rfl, rfl⟩
  · intro h
    have hn : ¬ absolute_time_diff_us s.last_press_time_button1 now < 100000 := not_lt.2 h
    simp only [gpio_irq_handler, if_true, hn, if_false, hne]
    split_ifs <;> exact ⟨rfl, rfl⟩

theorem diff_after (t d : Nat) (hd : d < 100000) :
    absolute_time_diff_us t (t + d) < 100000 := by
  unfold absolute_time_diff_us
  push_cast
  omega

/-- C12: an edge of either button that arrives less than 100 ms after the other button's
recorded edge advances the mode by one step of the cycle Normal, SetClock, SetAlarm,
Normal, records its own timestamp and changes nothing else, in particular no field of
currentTime or alarmTime; the cycle has period 3: three combo edges in a row bring the
mode back, one or two do not. -/
theorem combo_edge_cycles_mode (s : State) (now t1 t2 t3 : Nat) :
    (absolute_time_diff_us s.last_press_time_button2 now < 100000 →
      gpio_irq_handler s BUTTON_PIN1 now
        = { s with mode := mode_cycle s.mode, last_press_time_button1 := now }) ∧
    (absolute_time_diff_us s.last_press_time_button1 now < 100000 →
      gpio_irq_handler s BUTTON_PIN2 now
        = { s with mode := mode_cycle s.mode, last_press_time_button2 := now }) ∧
    (mode_cycle .MODE_NORMAL = .MODE_SET_CLOCK ∧ mode_cycle .MODE_SET_CLOCK = .MODE_SET_ALARM ∧
      mode_cycle .MODE_SET_ALARM = .MODE_NORMAL) ∧
    (mode_cycle (mode_cycle (mode_cycle s.mode)) = s.mode ∧ mode_cycle s.mode ≠ s.mode ∧
      mode_cycle (mode_cycle s.mode) ≠ s.mode) ∧
    (absolute_time_diff_us s.last_press_time_button2 t1 < 100000 →
      absolute_time_diff_us t1 t2 < 100000 → absolute_time_diff_us t2 t3 < 100000 →
      gpio_irq_handler (gpio_irq_handler (gpio_irq_handler s BUTTON_PIN1 t1) BUTTON_PIN2 t2)
          BUTTON_PIN1 t3
        = { s with last_press_time_button1 := t3, last_press_time_button2 := t2 }) := by
  refine ⟨handler_button1_combo s now, handler_button2_combo s now, ⟨rfl, rfl, rfl⟩,
    mode_cycle_period s.mode, ?_⟩
  intro h1 h2 h3
  rw [handler_button1_combo s t1 h1]
  have e2 := handler_button2_combo
    { s with mode := mode_cycle s.mode, last_press_time_button1 := t1 } t2 h2
  rw [e2]
  have e3 := handler_button1_combo
    { s with mode := mode_cycle (mode_cycle s.mode), last_press_time_button1 := t1,
             last_press_time_button2 := t2 } t3 h3
  rw [e3]
  simp only [(mode_cycle_period s.mode).1]

/-- C13: from a state in which neither button has a recorded edge within the preceding
100 ms, a Button1 edge at `t` followed by a Button2 edge at `t + d` with d < 100 ms, or
Button2 followed by Button1, leaves the mode at the successor of the initial mode, which
is neither the initial mode nor its second successor; every handler call records `now`
as the timestamp of its own button, whichever branch it takes. -/
theorem two_button_combo_once (s : State) (t d : Nat)
    (h1 : 100000 ≤ absolute_time_diff_us s.last_press_time_button1 t)
    (h2 : 100000 ≤ absolute_time_diff_us s.last_press_time_button2 t)
    (hd : d < 100000) :
    (gpio_irq_handler s BUTTON_PIN1 t).mode = s.mode ∧
    (gpio_irq_handler (gpio_irq_handler s BUTTON_PIN1 t) BUTTON_PIN2 (t + d)).mode
      = mode_cycle s.mode ∧
    (gpio_irq_handler s BUTTON_PIN2 t).mode = s.mode ∧
    (gpio_irq_handler (gpio_irq_handler s BUTTON_PIN2 t) BUTTON_PIN1 (t + d)).mode
      = mode_cycle s.mode ∧
    mode_cycle s.mode ≠ s.mode ∧ mode_cycle s.mode ≠ mode_cycle (mode_cycle s.mode) ∧
    (∀ (x : State) (now : Nat),
      (gpio_irq_handler x BUTTON_PIN1 now).last_press_time_button1 = now ∧
      (gpio_irq_handler x BUTTON_PIN2 now).last_press_time_button2 = now) := by
  obtain ⟨m1, _⟩ := (handler_single_mode s t).1 h2
  obtain ⟨m2, _⟩ := (handler_single_mode s t).2 h1
  have s1 := (handler_records_stamp s t).1
  have s2 := (handler_records_stamp s t).2
  have c1 := handler_button2_combo (gpio_irq_handler s BUTTON_PIN1 t) (t + d)
    (by rw [s1]; exact diff_after t d hd)
  have c2 := handler_button1_combo (gpio_irq_handler s BUTTON_PIN2 t) (t + d)
    (by rw [s2]; exact diff_after t d hd)
  refine ⟨m1, by rw [c1, ← m1], m2, by rw [c2, ← m2], (mode_cycle_period s.mode).2.1, ?_,
    handler_records_stamp⟩
  exact fun h => (mode_cycle_period (mode_cycle s.mode)).2.1 h.symm

/-- Witness of C13: from the initial state, Button1 at 1 s and Button2 50 ms later give
SetClock mode; so do Button2 at 1 s and Button1 50 ms later. -/
theorem two_button_combo_once_witness :
    (gpio_irq_handler (gpio_irq_handler (init 0) BUTTON_PIN1 1000000) BUTTON_PIN2
        (1000000 + 50000)).mode = Mode.MODE_SET_CLOCK ∧
    (gpio_irq_handler (gpio_irq_handler (init 0) BUTTON_PIN2 1000000) BUTTON_PIN1
        (1000000 + 50000)).mode = Mode.MODE_SET_CLOCK :=
  have h := two_button_combo_once (init 0) 1000000 50000 (by decide) (by decide) (by decide)
  ⟨h.2.1, h.2.2.2.1⟩

/-- C20: from a state with in-range clock values in which neither button has a recorded
edge within the preceding 100 ms, the first edge of a two-button combo is handled as a
single press: after Button1 then Button2 within 100 ms the mode has advanced once and the
hour of the clock value selected by the initial mode has been incremented modulo 24
(currentTime in SetClock, alarmTime in SetAlarm), after Button2 then Button1 its minute
has been incremented modulo 60; the incremented field differs from the old one; in Normal
mode both clock values are unchanged. -/
theorem combo_gesture_side_effect (s : State) (t d : Nat)
    (hc : in_range s.currentTime) (ha : in_range s.alarmTime)
    (h1 : 100000 ≤ absolute_time_diff_us s.last_press_time_button1 t)
    (h2 : 100000 ≤ absolute_time_diff_us s.last_press_time_button2 t)
    (hd : d < 100000) :
    gpio_irq_handler (gpio_irq_handler s BUTTON_PIN1 t) BUTTON_PIN2 (t + d)
      = { single_press1 s with mode := mode_cycle s.mode, last_press_time_button1 := t,
                               last_press_time_button2 := t + d } ∧
    gpio_irq_handler (gpio_irq_handler s BUTTON_PIN2 t) BUTTON_PIN1 (t + d)
      = { single_press2 s with mode := mode_cycle s.mode, last_press_time_button2 := t,
                               last_press_time_button1 := t + d } ∧
    (s.mode = .MODE_SET_CLOCK →
      (single_press1 s).currentTime
        = ⟨(s.currentTime.hour + 1) % 24, s.currentTime.min, s.currentTime.sec⟩ ∧
      (single_press2 s).currentTime
        = ⟨s.currentTime.hour, (s.currentTime.min + 1) % 60, s.currentTime.sec⟩ ∧
      (single_press1 s).alarmTime = s.alarmTime ∧ (single_press2 s).alarmTime = s.alarmTime ∧
      (s.currentTime.hour + 1) % 24 ≠ s.currentTime.hour ∧
      (s.currentTime.min + 1) % 60 ≠ s.currentTime.min) ∧
    (s.mode = .MODE_SET_ALARM →
      (single_press1 s).alarmTime
        = ⟨(s.alarmTime.hour + 1) % 24, s.alarmTime.min, s.alarmTime.sec⟩ ∧
      (single_press2 s).alarmTime
        = ⟨s.alarmTime.hour, (s.alarmTime.min + 1) % 60, s.alarmTime.sec⟩ ∧
      (single_press1 s).currentTime = s.currentTime ∧
      (single_press2 s).currentTime = s.currentTime ∧
      (s.alarmTime.hour + 1) % 24 ≠ s.alarmTime.hour ∧
      (s.alarmTime.min + 1) % 60 ≠ s.alarmTime.min) ∧
    (s.mode = .MODE_NORMAL →
      (single_press1 s).currentTime = s.currentTime ∧
      (single_press1 s).alarmTime = s.alarmTime ∧
      (single_press2 s).currentTime = s.currentTime ∧
      (single_press2 s).alarmTime = s.alarmTime) := by
  obtain ⟨ch0, ch1, cm0, cm1, _, _⟩ := hc
  obtain ⟨ah0, ah1, am0, am1, _, _⟩ := ha
  have hc : in_range s.currentTime := ⟨ch0, ch1, cm0, cm1, by assumption, by assumption⟩
  have ha : in_range s.alarmTime := ⟨ah0, ah1, am0, am1, by assumption, by assumption⟩
  refine ⟨?_, ?_, ?_, ?_, ?_⟩
  · rw [handler_button1_single s t hc ha h2]
    have e := handler_button2_combo { single_press1 s with last_press_time_button1 := t }
      (t + d) (diff_after t d hd)
    rw [e]
    obtain ⟨mode, ct, alt, act, actt, idx, l1, l2, lu, lr, lg⟩ := s
    cases mode <;> rfl
  · rw [handler_button2_single s t hc ha h1]
    have e := handler_button1_combo { single_press2 s with last_press_time_button2 := t }
      (t + d) (diff_after t d hd)
    rw [e]
    obtain ⟨mode, ct, alt, act, actt, idx, l1, l2, lu, lr, lg⟩ := s
    cases mode <;> rfl
  · intro hm
    simp only [single_press1, single_press2, hm]
    exact ⟨trivial, trivial, trivial, trivial, by omega, by omega⟩
  · intro hm
    simp only [single_press1, single_press2, hm]
    exact ⟨trivial, trivial, trivial, trivial, by omega, by omega⟩
  · intro hm
    simp only [single_press1, single_press2, hm]
    exact ⟨trivial, trivial, trivial, trivial⟩

/-- Witness of C20: in SetClock mode at 12:00:00, Button1 at 1 s and Button2 50 ms later
leave SetAlarm mode and currentTime 13:00:00. -/
theorem combo_gesture_side_effect_witness :
    gpio_irq_handler (gpio_irq_handler { init 0 with mode := .MODE_SET_CLOCK }
        BUTTON_PIN1 1000000) BUTTON_PIN2 (1000000 + 50000)
      = { init 0 with mode := .MODE_SET_ALARM, currentTime := ⟨13, 0, 0⟩,
                      last_press_time_button1 := 1000000,
                      last_press_time_button2 := 1050000 } ∧
    gpio_irq_handler (gpio_irq_handler { init 0 with mode := .MODE_SET_CLOCK }
        BUTTON_PIN1 1000000) BUTTON_PIN2 (1000000 + 50000)
      = { single_press1 { init 0 with mode := .MODE_SET_CLOCK } with
          mode := mode_cycle .MODE_SET_CLOCK, last_press_time_button1 := 1000000,
          last_press_time_button2 := 1000000 + 50000 } :=
  ⟨by decide,
   (combo_gesture_side_effect { init 0 with mode := .MODE_SET_CLOCK } 1000000 50000
      (by decide) (by decide) (by decide) (by decide) (by decide)).1⟩

/-! ## Bound of the sequence progress -/

theorem update_display_line4_of_bounds (s : State)
    (h0 : 0 ≤ s.current_sequence_index) (h3 : s.current_sequence_index < 3) :
    ∃ l, update_display_line4 s = some l ∧ l ≠ "ALARM! Code OK" := by
  by_cases ha : s.alarm_active = true
  · have hi : s.current_sequence_index = 0 ∨ s.current_sequence_index = 1 ∨
        s.current_sequence_index = 2 := by omega
    rcases hi with h | h | h
    · exact ⟨"ALARM! Next: C4", by rw [update_display_line4, if_pos ha, h]; decide, by decide⟩
    · exact ⟨"ALARM! Next: E4", by rw [update_display_line4, if_pos ha, h]; decide, by decide⟩
    · exact ⟨"ALARM! Next: G4", by rw [update_display_line4, if_pos ha, h]; decide, by decide⟩
  · exact ⟨"", by rw [update_display_line4, if_neg ha], by decide⟩

/-- C17: every finite sequence of main-loop iterations and button edges from the initial
state runs to a state in which 0 <= current_sequence_index < SEQUENCE_LENGTH; there the
read of update_display is in bounds and its fourth line is not "ALARM! Code OK"; and in
the next iteration, whatever its instant and detector result, the progress is again within
[0, SEQUENCE_LENGTH) at the point where the detected note is compared, the read of
correct_sequence there is in bounds, and the iteration returns a state. -/
theorem sequence_index_in_bounds (t0 : Nat) (evs : List Event) :
    ∃ s, run (init t0) evs = some s ∧
      0 ≤ s.current_sequence_index ∧ s.current_sequence_index < SEQUENCE_LENGTH ∧
      (∃ l, update_display_line4 s = some l ∧ l ≠ "ALARM! Code OK") ∧
      (∃ c, correct_sequence_at s.current_sequence_index = some c) ∧
      ∀ (now : Nat) (d : Int),
        0 ≤ (blink (alarm_trigger (clock_update s now) now) now).current_sequence_index ∧
        (blink (alarm_trigger (clock_update s now) now) now).current_sequence_index
          < SEQUENCE_LENGTH ∧
        (∃ c, correct_sequence_at
          (blink (alarm_trigger (clock_update s now) now) now).current_sequence_index
            = some c) ∧
        ∃ s1, main_loop_iteration s now d = some s1 ∧
          0 ≤ s1.current_sequence_index ∧ s1.current_sequence_index < SEQUENCE_LENGTH := by
  obtain ⟨s, e, h0, h3, hc, ha⟩ := run_inv evs (init t0) (init_inv t0)
  have hread : ∀ i : Int, 0 ≤ i → i < 3 → ∃ c, correct_sequence_at i = some c := by
    intro i i0 i3
    have hi : i = 0 ∨ i = 1 ∨ i = 2 := by omega
    rcases hi with h | h | h <;> subst h
    · exact ⟨0, by decide⟩
    · exact ⟨2, by decide⟩
    · exact ⟨4, by decide⟩
  refine ⟨s, e, h0, h3, update_display_line4_of_bounds s h0 h3, hread _ h0 h3, ?_⟩
  intro now d
  have hb : 0 ≤ (blink (alarm_trigger (clock_update s now) now) now).current_sequence_index ∧
      (blink (alarm_trigger (clock_update s now) now) now).current_sequence_index < 3 := by
    rw [(blink_alarm _ now).2.1]
    rcases alarm_trigger_cases (clock_update s now) now with ⟨_, _, _, t2, _, _⟩ | ⟨_, t⟩
    · rw [t2]; omega
    · rw [t, (clock_update_alarm s now).2.1]; exact ⟨h0, h3⟩
  obtain ⟨s1, e1, i1⟩ := step_inv s (Event.loop now d) ⟨h0, h3, hc, ha⟩
  exact ⟨hb.1, hb.2, hread _ hb.1 hb.2, s1, e1, i1.1, i1.2.1⟩

/-! ## Clock drift -/

/-- C18, the code at the failing schedule: from the initial state with last_update = 0,
in Normal mode, thirty-three iterations at the instants 0.4 s, 0.8 s, ..., 13.2 s advance
the clock eleven times only, at 1.2 s, 2.4 s, ..., 13.2 s, because each advance sets
last_update to the instant of the iteration: the clock reads 12:00:11 at 13.2 s, twelve
whole seconds after its first advance; the first three iterations leave 12:00:01. -/
theorem clock_drifts_with_slow_iterations :
    (run (init 0) slow_iterations).map (fun s => (s.mode, s.currentTime, s.last_update))
      = some (Mode.MODE_NORMAL, ⟨12, 0, 11⟩, 13200000) ∧
    advances (init 0) slow_iterations = 11 ∧
    (run (init 0) (slow_iterations.take 3)).map (fun s => (s.currentTime, s.last_update))
      = some (⟨12, 0, 1⟩, 1200000) := by
  set_option maxRecDepth 100000 in decide

/-! ## Blinking of the red LED -/

/-- C19, the code at the failing input: the value written to the red LED by an iteration
with the alarm active is computed from the milliseconds since boot and does not depend on
alarm_activation_time; in SetClock mode at 07:00:00 the iteration at 6.5 s activates the
alarm, records 6500000 as activation instant and writes the LED off, and the iteration
500 ms later writes it on. -/
theorem blink_uses_time_since_boot :
    (∀ (s : State) (now : Nat),
      (blink s now).led_red = decide ((to_ms_since_boot now / 500) % 2 = 0)) ∧
    (main_loop_iteration at_alarm_time 6500000 (-1)).map
        (fun s => (s.alarm_active, s.alarm_activation_time, s.led_red))
      = some (true, 6500000, false) ∧
    (run at_alarm_time [Event.loop 6500000 (-1), Event.loop 7000000 (-1)]).map
        (fun s => (s.alarm_active, s.alarm_activation_time, s.led_red))
      = some (true, 6500000, true) := by
  refine ⟨?_, by decide, by decide⟩
  intro s now
  unfold blink
  dsimp only
  split_ifs with h <;> simp [h]

/-! ## Sign of the Goertzel power -/

theorem goertzel_power_nonneg_of_abs_le {K : Type} [LinearOrderedField K] (c a b : K)
    (hc : |c| ≤ 2) : 0 ≤ goertzel_power c a b := by
  obtain ⟨h1, h2⟩ := abs_le.1 hc
  have e1 : 0 ≤ (2 + c) * (a - b) ^ 2 := mul_nonneg (by linarith) (sq_nonneg _)
  have e2 : 0 ≤ (2 - c) * (a + b) ^ 2 := mul_nonneg (by linarith) (sq_nonneg _)
  unfold goertzel_power
  nlinarith [e1, e2]

/-- C14: in exact arithmetic over any ordered field (the rationals, the reals), for
every window and every coefficient with |coeff| <= 2, the recurrence
s[i] = x[i] + coeff * s[i-1] - s[i-2] started from 0, 0 is what goertzel_loop computes,
and the power s_prev2^2 + s_prev^2 - coeff * s_prev * s_prev2 of its two final states
after NUM_SAMPLES rounds is >= 0; so goertzel returns a value >= 0 whenever the cosine
it is given is bounded by 1 in absolute value. -/
theorem goertzel_power_nonneg {K : Type} [LinearOrderedField K] (cosf : K → K)
    (samples : Nat → K) (coeff target_freq : K)
    (hc : |coeff| ≤ 2) (hcos : ∀ x, |cosf x| ≤ 1) :
    goertzel_loop samples coeff 0 = (0, 0) ∧
    (∀ n, goertzel_loop samples coeff (n + 1)
      = (samples n + coeff * (goertzel_loop samples coeff n).1
          - (goertzel_loop samples coeff n).2, (goertzel_loop samples coeff n).1)) ∧
    (∀ s_prev s_prev2 : K, goertzel_power coeff s_prev s_prev2
      = s_prev2 * s_prev2 + s_prev * s_prev - coeff * s_prev * s_prev2) ∧
    0 ≤ goertzel_power coeff (goertzel_loop samples coeff NUM_SAMPLES).1
      (goertzel_loop samples coeff NUM_SAMPLES).2 ∧
    0 ≤ goertzel cosf samples target_freq := by
  refine ⟨rfl, fun n => rfl, fun _ _ => rfl, goertzel_power_nonneg_of_abs_le _ _ _ hc, ?_⟩
  have h2 : |2 * cosf (2 * (M_PI : K) * target_freq / (SAMPLE_RATE : K))| ≤ 2 := by
    rw [abs_mul, abs_two]
    have := hcos (2 * (M_PI : K) * target_freq / (SAMPLE_RATE : K))
    linarith
  unfold goertzel
  dsimp only
  generalize goertzel_loop samples _ NUM_SAMPLES = p
  obtain ⟨a, b⟩ := p
  exact goertzel_power_nonneg_of_abs_le _ a b h2

/-- Witness of C14: over the reals with the real cosine, on the ramp window, at 440 Hz
and for the coefficient 1. -/
theorem goertzel_power_nonneg_witness :
    0 ≤ goertzel_power (1 : ℝ) (goertzel_loop (fun i => (i : ℝ)) 1 NUM_SAMPLES).1
      (goertzel_loop (fun i => (i : ℝ)) 1 NUM_SAMPLES).2 ∧
    0 ≤ goertzel Real.cos (fun i => (i : ℝ)) 440 :=
  have h := goertzel_power_nonneg Real.cos (fun i => (i : ℝ)) 1 440
    (by norm_num) Real.abs_cos_le_one
  ⟨h.2.2.2.1, h.2.2.2.2⟩

/-! ## Pure tones -/



/-- The phasor sum is linear in the sequence. -/
theorem phasor_sum_lin {R : Type} [CommRing R] (a b c : R) (z1 z2 z3 : ℕ → R) (u : R) (m : ℕ) :
    phasor_sum (fun n => a * z1 n + b * z2 n + c * z3 n) u m
      = a * phasor_sum z1 u m + b * phasor_sum z2 u m + c * phasor_sum z3 u m := by
  induction m with
  | zero => simp [phasor_sum]
  | succ k ih => simp only [phasor_sum, ih]; ring

/-- The phasor sum of a geometric sequence, in closed form. -/
theorem phasor_sum_geom {R : Type} [CommRing R] (v u : R) (m : ℕ) :
    phasor_sum (fun n => v ^ n) u m * (v - u) = v ^ m - u ^ m := by
  induction m with
  | zero => simp [phasor_sum]
  | succ k ih =>
    simp only [phasor_sum]
    have : (v ^ k + u * phasor_sum (fun n => v ^ n) u k) * (v - u)
        = v ^ k * (v - u) + u * (phasor_sum (fun n => v ^ n) u k * (v - u)) := by ring
    rw [this, ih]; ring

/-- The phasor sum of a geometric sequence at resonance. -/
theorem phasor_sum_geom_self {R : Type} [CommRing R] (v : R) (m : ℕ) :
    phasor_sum (fun n => v ^ n) v m * v = (m : R) * v ^ m := by
  induction m with
  | zero => simp [phasor_sum]
  | succ k ih =>
    simp only [phasor_sum]
    have : (v ^ k + v * phasor_sum (fun n => v ^ n) v k) * v
        = v ^ (k + 1) + v * (phasor_sum (fun n => v ^ n) v k * v) := by ring
    rw [this, ih]; push_cast; ring

/-- The sampling loop accumulates the phasor sum at u = 1. -/
theorem avg_loop_eq_phasor_sum {K : Type} [Field K] (z : ℕ → K) (m : ℕ) :
    avg_loop z m = phasor_sum z 1 m := by
  induction m with
  | zero => rfl
  | succ k ih => simp only [avg_loop, phasor_sum, ih]; ring

theorem phasor_sum_ofReal (x : ℕ → ℝ) (u : ℝ) (m : ℕ) :
    ((phasor_sum x u m : ℝ) : ℂ) = phasor_sum (fun n => (x n : ℂ)) (u : ℂ) m := by
  induction m with
  | zero => simp [phasor_sum]
  | succ k ih => simp only [phasor_sum]; push_cast; rw [ih]

/-- The accumulation of a geometric sequence is bounded away from resonance. -/
theorem phasor_sum_geom_norm_le (v u : ℂ) (hv : ‖v‖ = 1) (hu : ‖u‖ = 1) (m : ℕ) (r : ℝ)
    (hr : 0 < r) (h : r ≤ ‖v - u‖) :
    ‖phasor_sum (fun n => v ^ n) u m‖ ≤ 2 / r := by
  have e := phasor_sum_geom v u m
  have h1 : ‖phasor_sum (fun n => v ^ n) u m‖ * ‖v - u‖ ≤ 2 := by
    rw [← norm_mul, e]
    calc ‖v ^ m - u ^ m‖ ≤ ‖v ^ m‖ + ‖u ^ m‖ := norm_sub_le _ _
      _ = 2 := by rw [norm_pow, norm_pow, hv, hu]; norm_num
  rw [le_div_iff₀ hr]
  calc ‖phasor_sum (fun n => v ^ n) u m‖ * r ≤ ‖phasor_sum (fun n => v ^ n) u m‖ * ‖v - u‖ :=
        mul_le_mul_of_nonneg_left h (norm_nonneg _)
    _ ≤ 2 := h1

/-- At resonance the phasor sum of a unit geometric sequence has norm m. -/
theorem phasor_sum_geom_self_norm (v : ℂ) (hv : ‖v‖ = 1) (m : ℕ) :
    ‖phasor_sum (fun n => v ^ n) v m‖ = m := by
  have e := congrArg norm (phasor_sum_geom_self v m)
  rw [norm_mul, norm_mul, norm_pow, hv, one_pow, mul_one, mul_one] at e
  rw [e]; simp

/-- Near resonance the phasor sum stays close to its value at resonance. -/
theorem phasor_sum_geom_near (v u : ℂ) (hv : ‖v‖ = 1) (hu : ‖u‖ = 1) (m : ℕ) :
    ‖phasor_sum (fun n => v ^ n) u m - phasor_sum (fun n => v ^ n) v m‖ ≤ ‖u - v‖ * (m : ℝ) ^ 2 := by
  induction m with
  | zero => simp [phasor_sum]
  | succ k ih =>
    simp only [phasor_sum]
    have e : v ^ k + u * phasor_sum (fun n => v ^ n) u k - (v ^ k + v * phasor_sum (fun n => v ^ n) v k)
        = u * (phasor_sum (fun n => v ^ n) u k - phasor_sum (fun n => v ^ n) v k)
          + (u - v) * phasor_sum (fun n => v ^ n) v k := by ring
    rw [e]
    have h1 : ‖u * (phasor_sum (fun n => v ^ n) u k - phasor_sum (fun n => v ^ n) v k)‖
        ≤ ‖u - v‖ * (k : ℝ) ^ 2 := by
      rw [norm_mul, hu, one_mul]; exact ih
    have h2 : ‖(u - v) * phasor_sum (fun n => v ^ n) v k‖ = ‖u - v‖ * k := by
      rw [norm_mul, phasor_sum_geom_self_norm v hv k]
    have h3 : (0:ℝ) ≤ ‖u - v‖ := norm_nonneg _
    have hk : (0:ℝ) ≤ k := Nat.cast_nonneg k
    calc _ ≤ ‖u * (phasor_sum (fun n => v ^ n) u k - phasor_sum (fun n => v ^ n) v k)‖
            + ‖(u - v) * phasor_sum (fun n => v ^ n) v k‖ := norm_add_le _ _
      _ ≤ ‖u - v‖ * (k : ℝ) ^ 2 + ‖u - v‖ * k := by rw [h2]; linarith
      _ ≤ ‖u - v‖ * ((k + 1 : ℕ) : ℝ) ^ 2 := by push_cast; nlinarith

theorem goertzel_loop_succ {K : Type} [Field K] (x : ℕ → K) (c : K) (n : ℕ) :
    goertzel_loop x c (n + 1)
      = (x n + c * (goertzel_loop x c n).1 - (goertzel_loop x c n).2,
          (goertzel_loop x c n).1) := rfl

theorem goertzel_eq {K : Type} [Field K] (cosf : K → K) (x : ℕ → K) (f : K) :
    goertzel cosf x f
      = goertzel_power (2 * cosf (2 * (M_PI : K) * f / (SAMPLE_RATE : K)))
          (goertzel_loop x (2 * cosf (2 * (M_PI : K) * f / (SAMPLE_RATE : K))) NUM_SAMPLES).1
          (goertzel_loop x (2 * cosf (2 * (M_PI : K) * f / (SAMPLE_RATE : K))) NUM_SAMPLES).2 := by
  unfold goertzel
  dsimp only

/-- The unit complex number of angle `w`. -/
theorem unit_facts (w : ℝ) :
    ‖Complex.exp (w * Complex.I)‖ = 1 ∧
    Complex.exp (w * Complex.I) * Complex.exp (-(w * Complex.I)) = 1 ∧
    ((2 * Real.cos w : ℝ) : ℂ) = Complex.exp (w * Complex.I) + Complex.exp (-(w * Complex.I)) := by
  refine ⟨Complex.norm_exp_ofReal_mul_I w, ?_, ?_⟩
  · rw [← Complex.exp_add]; simp
  · push_cast
    rw [Complex.cos]
    ring_nf

/-- The two states of the Goertzel recurrence combine into the phasor sum. -/
theorem goertzel_loop_phasor_sum (x : ℕ → ℝ) (w : ℝ) (m : ℕ) :
    (((goertzel_loop x (2 * Real.cos w) m).1 : ℝ) : ℂ)
        - Complex.exp (-(w * Complex.I)) * (((goertzel_loop x (2 * Real.cos w) m).2 : ℝ) : ℂ)
      = phasor_sum (fun n => (x n : ℂ)) (Complex.exp (w * Complex.I)) m := by
  obtain ⟨_, h1, h2⟩ := unit_facts w
  induction m with
  | zero => simp [goertzel_loop, phasor_sum]
  | succ k ih =>
    rw [goertzel_loop_succ]
    simp only [phasor_sum, ← ih]
    push_cast at h2 ⊢
    generalize (((goertzel_loop x (2 * Real.cos w) k).1 : ℝ) : ℂ) = a
    generalize (((goertzel_loop x (2 * Real.cos w) k).2 : ℝ) : ℂ) = b
    rw [h2]
    linear_combination b * h1

/-- The power of line 108 is the squared norm of that combination. -/
theorem goertzel_power_normSq (w a b : ℝ) :
    goertzel_power (2 * Real.cos w) a b
      = ‖(a : ℂ) - Complex.exp (-(w * Complex.I)) * (b : ℂ)‖ ^ 2 := by
  obtain ⟨_, h1, h2⟩ := unit_facts w
  rw [Complex.norm_eq_abs, Complex.sq_abs]
  apply Complex.ofReal_injective
  rw [← Complex.mul_conj]
  have hc : (starRingEnd ℂ) ((a : ℂ) - Complex.exp (-(w * Complex.I)) * (b : ℂ))
      = (a : ℂ) - Complex.exp (w * Complex.I) * (b : ℂ) := by
    rw [map_sub, map_mul, Complex.conj_ofReal, Complex.conj_ofReal, ← Complex.exp_conj]
    simp
  rw [hc]
  unfold goertzel_power
  push_cast at h2 ⊢
  rw [h2]
  linear_combination (-((b:ℂ) * b)) * h1

/-- Over the reals, `goertzel` returns the squared norm of the phasor sum of the window. -/
theorem goertzel_real_eq (x : ℕ → ℝ) (f : ℝ) :
    goertzel Real.cos x f
      = ‖phasor_sum (fun n => (x n : ℂ))
          (Complex.exp ((2 * (M_PI : ℝ) * f / (SAMPLE_RATE : ℝ) : ℝ) * Complex.I)) NUM_SAMPLES‖ ^ 2 := by
  rw [goertzel_eq, goertzel_power_normSq, goertzel_loop_phasor_sum]


/-- The squared distance of two points of the unit circle. -/
theorem exp_sub_norm_sq (a b : ℝ) :
    ‖Complex.exp (a * Complex.I) - Complex.exp (b * Complex.I)‖ ^ 2
      = 2 - 2 * Real.cos (a - b) := by
  rw [Complex.norm_eq_abs, Complex.sq_abs, Complex.normSq_apply]
  simp only [Complex.sub_re, Complex.sub_im, Complex.exp_ofReal_mul_I_re,
    Complex.exp_ofReal_mul_I_im, Real.cos_sub]
  have ha := Real.sin_sq_add_cos_sq a
  have hb := Real.sin_sq_add_cos_sq b
  nlinarith [ha, hb]

theorem exp_sub_norm_ge (a b r : ℝ) (h : Real.cos (a - b) ≤ 1 - r ^ 2 / 2) :
    r ≤ ‖Complex.exp (a * Complex.I) - Complex.exp (b * Complex.I)‖ := by
  have e := exp_sub_norm_sq a b
  have hn := norm_nonneg (Complex.exp (a * Complex.I) - Complex.exp (b * Complex.I))
  by_contra hlt
  push_neg at hlt
  nlinarith

theorem exp_sub_norm_le (a b : ℝ) (h : |a - b| ≤ 1) :
    ‖Complex.exp (a * Complex.I) - Complex.exp (b * Complex.I)‖ ≤ 2 * |a - b| := by
  have e : Complex.exp (a * Complex.I) - Complex.exp (b * Complex.I)
      = Complex.exp (b * Complex.I) * (Complex.exp (((a - b : ℝ) : ℂ) * Complex.I) - 1) := by
    rw [mul_sub, ← Complex.exp_add, mul_one]
    congr 2
    push_cast
    ring
  have hx : Complex.abs (((a - b : ℝ) : ℂ) * Complex.I) = |a - b| := by
    rw [map_mul, Complex.abs_I, mul_one, Complex.abs_ofReal]
  rw [e, norm_mul, Complex.norm_exp_ofReal_mul_I, one_mul, Complex.norm_eq_abs]
  have := Complex.abs_exp_sub_one_le (x := ((a - b : ℝ) : ℂ) * Complex.I) (by rw [hx]; exact h)
  rw [hx] at this
  exact this


/-- The samples of an offset sinusoid as a combination of three geometric sequences. -/
theorem sinusoid_decomp (θ φ A c : ℝ) (n : ℕ) :
    ((c + A * Real.sin (θ * n + φ) : ℝ) : ℂ)
      = (-(A : ℂ) * Complex.exp (φ * Complex.I) * Complex.I / 2)
            * Complex.exp (θ * Complex.I) ^ n
        + ((A : ℂ) * Complex.exp (-(φ * Complex.I)) * Complex.I / 2)
            * Complex.exp (-(θ * Complex.I)) ^ n
        + (c : ℂ) * 1 ^ n := by
  have e1 : Complex.exp (((θ * n + φ : ℝ) : ℂ) * Complex.I)
      = Complex.exp (φ * Complex.I) * Complex.exp (θ * Complex.I) ^ n := by
    rw [← Complex.exp_nat_mul, ← Complex.exp_add]
    congr 1; push_cast; ring
  have e2 : Complex.exp (-((θ * n + φ : ℝ) : ℂ) * Complex.I)
      = Complex.exp (-(φ * Complex.I)) * Complex.exp (-(θ * Complex.I)) ^ n := by
    rw [← Complex.exp_nat_mul, ← Complex.exp_add]
    congr 1; push_cast; ring
  rw [Complex.ofReal_add, Complex.ofReal_mul, Complex.ofReal_sin, Complex.sin, e1, e2]
  simp only [one_pow, mul_one]
  ring


/-- The phasor sum of a mean-free sinusoid of angle `θ` per sample: at most 22 |A| at an
angle `wj` away from `θ`, at least 98 |A| at an angle `wk` next to `θ`. -/
theorem sinusoid_peak_core (N : ℕ) (hN : (N : ℝ) = 200) (θ wk wj φ A c m : ℝ) (hA : A ≠ 0)
    (hm : m * (N : ℝ) = avg_loop (fun i : ℕ => c + A * Real.sin (θ * i + φ)) N)
    (h1 : |θ - wk| ≤ 1 / 10 ^ 7)
    (h3k : Real.cos (θ + wk) ≤ 0) (h4k : Real.cos wk ≤ 7 / 8) (h4 : Real.cos θ ≤ 7 / 8) :
    (Real.cos (θ - wj) ≤ 1 - 1 / 800 → Real.cos (θ + wj) ≤ 0 → Real.cos wj ≤ 7 / 8 →
      ‖phasor_sum (fun n : ℕ => ((c + A * Real.sin (θ * n + φ) - m : ℝ) : ℂ))
          (Complex.exp (wj * Complex.I)) N‖ ≤ 22 * |A|) ∧
    98 * |A| ≤ ‖phasor_sum (fun n : ℕ => ((c + A * Real.sin (θ * n + φ) - m : ℝ) : ℂ))
        (Complex.exp (wk * Complex.I)) N‖ := by
  -- notation
  set raw : ℕ → ℝ := fun i => c + A * Real.sin (θ * i + φ) with hraw_def
  set v : ℂ := Complex.exp (θ * Complex.I) with hv_def
  set vb : ℂ := Complex.exp (-(θ * Complex.I)) with hvb_def
  set a1 : ℂ := -(A : ℂ) * Complex.exp (φ * Complex.I) * Complex.I / 2 with ha1_def
  set a2 : ℂ := (A : ℂ) * Complex.exp (-(φ * Complex.I)) * Complex.I / 2 with ha2_def
  have hvb' : vb = Complex.exp (((-θ : ℝ) : ℂ) * Complex.I) := by
    rw [hvb_def]; congr 1; push_cast; ring
  have hone : (1 : ℂ) = Complex.exp (((0 : ℝ) : ℂ) * Complex.I) := by simp
  -- unit norms
  have nv : ‖v‖ = 1 := Complex.norm_exp_ofReal_mul_I θ
  have nvb : ‖vb‖ = 1 := by rw [hvb']; exact Complex.norm_exp_ofReal_mul_I (-θ)
  have n1 : ‖(1 : ℂ)‖ = 1 := norm_one
  have nuj : ‖Complex.exp (wj * Complex.I)‖ = 1 := Complex.norm_exp_ofReal_mul_I wj
  have nuk : ‖Complex.exp (wk * Complex.I)‖ = 1 := Complex.norm_exp_ofReal_mul_I wk
  -- the coefficients
  have na : 0 < |A| := abs_pos.2 hA
  have nphi : ‖Complex.exp (φ * Complex.I)‖ = 1 := Complex.norm_exp_ofReal_mul_I φ
  have nphi' : ‖Complex.exp (-(φ * Complex.I))‖ = 1 := by
    have : -((φ : ℂ) * Complex.I) = ((-φ : ℝ) : ℂ) * Complex.I := by push_cast; ring
    rw [this]; exact Complex.norm_exp_ofReal_mul_I (-φ)
  have na1 : ‖a1‖ = |A| / 2 := by
    rw [ha1_def, norm_div, norm_mul, norm_mul, norm_neg, nphi, Complex.norm_I]
    simp [Complex.norm_eq_abs]
  have na2 : ‖a2‖ = |A| / 2 := by
    rw [ha2_def, norm_div, norm_mul, norm_mul, nphi', Complex.norm_I]
    simp [Complex.norm_eq_abs]
  -- decomposition of the window
  have hraw : ∀ n, (raw n : ℂ) = a1 * v ^ n + a2 * vb ^ n + (c : ℂ) * 1 ^ n :=
    fun n => sinusoid_decomp θ φ A c n
  have hx : (fun n => ((raw n - m : ℝ) : ℂ))
      = fun n => a1 * v ^ n + a2 * vb ^ n + ((c - m : ℝ) : ℂ) * 1 ^ n := by
    funext n
    rw [Complex.ofReal_sub, hraw n]
    push_cast; ring
  have hY : ∀ u : ℂ, phasor_sum (fun n => ((raw n - m : ℝ) : ℂ)) u N
      = a1 * phasor_sum (fun n => v ^ n) u N + a2 * phasor_sum (fun n => vb ^ n) u N
        + ((c - m : ℝ) : ℂ) * phasor_sum (fun n => (1 : ℂ) ^ n) u N := by
    intro u; rw [hx]; exact phasor_sum_lin _ _ _ _ _ _ u _
  -- the mean
  have hmean : ((N : ℝ) : ℂ) * ((c - m : ℝ) : ℂ)
      = -(a1 * phasor_sum (fun n => v ^ n) 1 N
          + a2 * phasor_sum (fun n => vb ^ n) 1 N) := by
    have e1 : ((avg_loop raw N : ℝ) : ℂ)
        = phasor_sum (fun n => (raw n : ℂ)) 1 N := by
      rw [avg_loop_eq_phasor_sum, phasor_sum_ofReal]; simp
    have e2 : phasor_sum (fun n => (raw n : ℂ)) 1 N
        = a1 * phasor_sum (fun n => v ^ n) 1 N + a2 * phasor_sum (fun n => vb ^ n) 1 N
          + (c : ℂ) * phasor_sum (fun n => (1 : ℂ) ^ n) 1 N := by
      have : (fun n => (raw n : ℂ)) = fun n => a1 * v ^ n + a2 * vb ^ n + (c : ℂ) * 1 ^ n :=
        funext hraw
      rw [this]; exact phasor_sum_lin _ _ _ _ _ _ 1 _
    have e3 : phasor_sum (fun n => (1 : ℂ) ^ n) 1 N = ((N : ℝ) : ℂ) := by
      have := phasor_sum_geom_self (1 : ℂ) N
      simpa using this
    have e4 : m * (N : ℝ) = avg_loop raw N := hm
    have e5 : ((m : ℝ) : ℂ) * ((N : ℝ) : ℂ) = ((avg_loop raw N : ℝ) : ℂ) := by
      rw [← Complex.ofReal_mul, e4]
    rw [e1, e2, e3] at e5
    push_cast at e5 ⊢
    linear_combination (-1 : ℂ) * e5
  -- distances on the unit circle
  have cneg : ∀ w : ℝ, Real.cos (-θ - w) = Real.cos (θ + w) := by
    intro w; rw [← Real.cos_neg]; congr 1; ring
  have d_bk : (1 : ℝ) ≤ ‖vb - Complex.exp (wk * Complex.I)‖ := by
    rw [hvb']; exact exp_sub_norm_ge (-θ) wk 1 (by rw [cneg]; norm_num; linarith only [h3k])
  have d_1k : (1 / 2 : ℝ) ≤ ‖(1 : ℂ) - Complex.exp (wk * Complex.I)‖ := by
    rw [hone]
    exact exp_sub_norm_ge 0 wk (1 / 2)
      (by rw [zero_sub, Real.cos_neg]; norm_num; linarith only [h4k])
  have d_v1 : (1 / 2 : ℝ) ≤ ‖v - 1‖ := by
    have := exp_sub_norm_ge θ 0 (1 / 2) (by rw [sub_zero]; norm_num; linarith only [h4])
    simpa using this
  have d_b1 : (1 / 2 : ℝ) ≤ ‖vb - 1‖ := by
    have := exp_sub_norm_ge (-θ) 0 (1 / 2)
      (by rw [sub_zero, Real.cos_neg]; norm_num; linarith only [h4])
    rw [hvb']; simpa using this
  have e_vk : ‖Complex.exp (wk * Complex.I) - v‖ ≤ 2 / 10 ^ 7 := by
    have hab : |wk - θ| ≤ 1 / 10 ^ 7 := by rw [abs_sub_comm]; exact h1
    have := exp_sub_norm_le wk θ (le_trans hab (by norm_num))
    linarith only [this, hab]
  -- bounds of the geometric accumulations
  have H_bk := phasor_sum_geom_norm_le vb _ nvb nuk N 1 (by norm_num) d_bk
  have H_1k := phasor_sum_geom_norm_le 1 _ n1 nuk N (1 / 2) (by norm_num) d_1k
  have H_v1 := phasor_sum_geom_norm_le v 1 nv n1 N (1 / 2) (by norm_num) d_v1
  have H_b1 := phasor_sum_geom_norm_le vb 1 nvb n1 N (1 / 2) (by norm_num) d_b1
  have H_vk : (199 : ℝ) ≤ ‖phasor_sum (fun n => v ^ n) (Complex.exp (wk * Complex.I)) N‖ := by
    have near := phasor_sum_geom_near v _ nv nuk N
    have self := phasor_sum_geom_self_norm v nv N
    have tri := norm_sub_norm_le (phasor_sum (fun n => v ^ n) v N)
      (phasor_sum (fun n => v ^ n) (Complex.exp (wk * Complex.I)) N)
    rw [norm_sub_rev] at tri
    rw [self] at tri
    have hNn : ((N : ℕ) : ℝ) = 200 := hN
    rw [hNn] at tri near
    have : ‖Complex.exp (wk * Complex.I) - v‖ * (200 : ℝ) ^ 2 ≤ 2 / 10 ^ 7 * (200 : ℝ) ^ 2 :=
      mul_le_mul_of_nonneg_right e_vk (by norm_num)
    have h9 : (2 / 10 ^ 7 * (200 : ℝ) ^ 2) ≤ 1 := by norm_num
    linarith only [tri, near, this, h9]
  -- the coefficient of the constant sequence
  have hc3 : ‖((c - m : ℝ) : ℂ)‖ ≤ |A| / 50 := by
    have e := congrArg norm hmean
    rw [norm_mul, norm_neg] at e
    have hNc : ‖((N : ℝ) : ℂ)‖ = 200 := by
      rw [hN]; simp [Complex.norm_eq_abs]
    rw [hNc] at e
    have t1 : ‖a1 * phasor_sum (fun n => v ^ n) 1 N
        + a2 * phasor_sum (fun n => vb ^ n) 1 N‖
        ≤ |A| / 2 * (2 / (1 / 2)) + |A| / 2 * (2 / (1 / 2)) := by
      refine le_trans (norm_add_le _ _) ?_
      rw [norm_mul, norm_mul, na1, na2]
      exact add_le_add (mul_le_mul_of_nonneg_left H_v1 (by positivity))
        (mul_le_mul_of_nonneg_left H_b1 (by positivity))
    linarith only [e, t1]
  -- the two powers
  have hn3 := norm_nonneg ((c - m : ℝ) : ℂ)
  constructor
  · intro h2 h3j h4j
    have d_vj : (1 / 20 : ℝ) ≤ ‖v - Complex.exp (wj * Complex.I)‖ :=
      exp_sub_norm_ge θ wj (1 / 20) (by norm_num; linarith only [h2])
    have d_bj : (1 : ℝ) ≤ ‖vb - Complex.exp (wj * Complex.I)‖ := by
      rw [hvb']; exact exp_sub_norm_ge (-θ) wj 1 (by rw [cneg]; norm_num; linarith only [h3j])
    have d_1j : (1 / 2 : ℝ) ≤ ‖(1 : ℂ) - Complex.exp (wj * Complex.I)‖ := by
      rw [hone]
      exact exp_sub_norm_ge 0 wj (1 / 2)
        (by rw [zero_sub, Real.cos_neg]; norm_num; linarith only [h4j])
    have H_vj := phasor_sum_geom_norm_le v _ nv nuj N (1 / 20) (by norm_num) d_vj
    have H_bj := phasor_sum_geom_norm_le vb _ nvb nuj N 1 (by norm_num) d_bj
    have H_1j := phasor_sum_geom_norm_le 1 _ n1 nuj N (1 / 2) (by norm_num) d_1j
    show ‖phasor_sum (fun n => ((raw n - m : ℝ) : ℂ)) (Complex.exp (wj * Complex.I)) N‖ ≤ 22 * |A|
    rw [hY]
    have upper : ‖a1 * phasor_sum (fun n => v ^ n) (Complex.exp (wj * Complex.I)) N
        + a2 * phasor_sum (fun n => vb ^ n) (Complex.exp (wj * Complex.I)) N
        + ((c - m : ℝ) : ℂ) * phasor_sum (fun n => (1 : ℂ) ^ n) (Complex.exp (wj * Complex.I)) N‖
        ≤ |A| / 2 * (2 / (1 / 20)) + |A| / 2 * (2 / 1) + |A| / 50 * (2 / (1 / 2)) := by
      refine le_trans (norm_add_le _ _) ?_
      refine add_le_add (le_trans (norm_add_le _ _) (add_le_add ?_ ?_)) ?_
      · rw [norm_mul, na1]
        exact mul_le_mul_of_nonneg_left H_vj (by positivity)
      · rw [norm_mul, na2]
        exact mul_le_mul_of_nonneg_left H_bj (by positivity)
      · rw [norm_mul]
        exact mul_le_mul hc3 H_1j (norm_nonneg _) (by positivity)
    have : |A| / 2 * (2 / (1 / 20)) + |A| / 2 * (2 / 1) + |A| / 50 * (2 / (1 / 2))
        ≤ 22 * |A| := by
      norm_num
      linarith only [na]
    linarith only [upper, this]
  · show 98 * |A| ≤ ‖phasor_sum (fun n => ((raw n - m : ℝ) : ℂ)) (Complex.exp (wk * Complex.I)) N‖
    rw [hY]
    have t1 : |A| / 2 * 199
        ≤ ‖a1 * phasor_sum (fun n => v ^ n) (Complex.exp (wk * Complex.I)) N‖ := by
      rw [norm_mul, na1]
      exact mul_le_mul_of_nonneg_left H_vk (by positivity)
    have t2 : ‖a2 * phasor_sum (fun n => vb ^ n) (Complex.exp (wk * Complex.I)) N‖
        ≤ |A| / 2 * (2 / 1) := by
      rw [norm_mul, na2]
      exact mul_le_mul_of_nonneg_left H_bk (by positivity)
    have t3 : ‖((c - m : ℝ) : ℂ)
          * phasor_sum (fun n => (1 : ℂ) ^ n) (Complex.exp (wk * Complex.I)) N‖
        ≤ |A| / 50 * (2 / (1 / 2)) := by
      rw [norm_mul]
      exact mul_le_mul hc3 H_1k (norm_nonneg _) (by positivity)
    have s1 := norm_sub_norm_le
      (a1 * phasor_sum (fun n => v ^ n) (Complex.exp (wk * Complex.I)) N)
      (-(a2 * phasor_sum (fun n => vb ^ n) (Complex.exp (wk * Complex.I)) N
        + ((c - m : ℝ) : ℂ) * phasor_sum (fun n => (1 : ℂ) ^ n) (Complex.exp (wk * Complex.I)) N))
    rw [norm_neg, sub_neg_eq_add, ← add_assoc] at s1
    have s2 := norm_add_le
      (a2 * phasor_sum (fun n => vb ^ n) (Complex.exp (wk * Complex.I)) N)
      (((c - m : ℝ) : ℂ) * phasor_sum (fun n => (1 : ℂ) ^ n) (Complex.exp (wk * Complex.I)) N)
    have : 98 * |A| ≤ |A| / 2 * 199 - |A| / 2 * (2 / 1) - |A| / 50 * (2 / (1 / 2)) := by
      norm_num
      linarith only [na]
    linarith only [t1, t2, t3, s1, s2, this]


/-- A quadratic upper bound of the cosine on [-1, 1]. -/
theorem cos_le_quad (t : ℝ) (ht : |t| ≤ 1) : Real.cos t ≤ 1 - 43 / 96 * t ^ 2 := by
  have h := (abs_le.1 (Real.cos_bound ht)).2
  have h2 : |t| ^ 4 ≤ t ^ 2 := by
    have e : |t| ^ 4 = t ^ 2 * t ^ 2 := by rw [← sq_abs t]; ring
    have h1 : t ^ 2 ≤ 1 := by rw [← sq_abs t]; exact pow_le_one₀ (abs_nonneg t) ht
    rw [e]
    nlinarith [sq_nonneg t]
  nlinarith

theorem cos_le_of_gap (t : ℝ) (h0 : 6 / 100 ≤ |t|) (ht : |t| ≤ 1) :
    Real.cos t ≤ 1 - 1 / 800 := by
  have h := cos_le_quad t ht
  have h2 : (6 / 100 : ℝ) ^ 2 ≤ t ^ 2 := by
    rw [← sq_abs t]; exact pow_le_pow_left₀ (by norm_num) h0 2
  nlinarith

theorem cos_le_of_band (w : ℝ) (h0 : 8 / 10 ≤ w) (h1 : w ≤ 17 / 10) : Real.cos w ≤ 7 / 8 := by
  by_cases hw : w ≤ 1
  · have h := cos_le_quad w (abs_le.2 ⟨by linarith, hw⟩)
    have h2 : (8 / 10 : ℝ) ^ 2 ≤ w ^ 2 := pow_le_pow_left₀ (by norm_num) h0 2
    nlinarith
  · push_neg at hw
    have h := cos_le_quad 1 (by norm_num)
    have hpi := Real.pi_gt_three
    have := Real.cos_le_cos_of_nonneg_of_le_pi (x := 1) (y := w) (by norm_num) (by linarith)
      hw.le
    nlinarith

theorem cos_nonpos_of_band (s : ℝ) (h0 : 16 / 10 ≤ s) (h1 : s ≤ 34 / 10) : Real.cos s ≤ 0 := by
  have h3 := Real.pi_gt_three
  have h4 := Real.pi_lt_d2
  exact Real.cos_nonpos_of_pi_div_two_le_of_le (by linarith) (by linarith)

/-- The catalog frequencies lie in [261, 524] and are at least 19.5 apart. -/
theorem key_freq_facts (k j : Nat) (hk : k < 8) (hj : j < 8) :
    261 ≤ key_freq k ∧ key_freq k ≤ 524 ∧ (k ≠ j → 39 / 2 ≤ |key_freq k - key_freq j|) := by
  interval_cases k <;> interval_cases j <;>
    simp only [key_freq, keys, List.map, List.getD_cons_zero, List.getD_cons_succ] <;>
    norm_num [abs_of_nonneg, abs_of_neg]

/-- The constant `M_PI` is below pi by less than 1e-20. -/
theorem M_PI_real : ((M_PI : ℚ) : ℝ) < Real.pi ∧ Real.pi < ((M_PI : ℚ) : ℝ) + 1 / 10 ^ 20 := by
  have e : ((M_PI : ℚ) : ℝ) = 3.14159265358979323846 := by
    unfold M_PI; norm_num
  have h1 := Real.pi_gt_d20
  have h2 := Real.pi_lt_d20
  rw [e]
  constructor
  · exact h1
  · refine lt_of_lt_of_le h2 ?_
    norm_num

theorem SAMPLE_RATE_real : ((SAMPLE_RATE : ℚ) : ℝ) = 2000 := by
  unfold SAMPLE_RATE; norm_num

/-- The angles of two catalog frequencies meet the requirements of `sinusoid_peak_core`. -/
theorem key_angles (fk fj : ℝ) (hk0 : 261 ≤ fk) (hk1 : fk ≤ 524) (hj0 : 261 ≤ fj)
    (hj1 : fj ≤ 524) :
    |2 * Real.pi * fk / 2000 - 2 * ((M_PI : ℚ) : ℝ) * fk / ((SAMPLE_RATE : ℚ) : ℝ)| ≤ 1 / 10 ^ 7 ∧
    (39 / 2 ≤ |fk - fj| →
      Real.cos (2 * Real.pi * fk / 2000 - 2 * ((M_PI : ℚ) : ℝ) * fj / ((SAMPLE_RATE : ℚ) : ℝ))
        ≤ 1 - 1 / 800) ∧
    Real.cos (2 * Real.pi * fk / 2000 + 2 * ((M_PI : ℚ) : ℝ) * fj / ((SAMPLE_RATE : ℚ) : ℝ)) ≤ 0 ∧
    Real.cos (2 * ((M_PI : ℚ) : ℝ) * fj / ((SAMPLE_RATE : ℚ) : ℝ)) ≤ 7 / 8 ∧
    Real.cos (2 * Real.pi * fk / 2000) ≤ 7 / 8 := by
  obtain ⟨hP1, hP2⟩ := M_PI_real
  rw [SAMPLE_RATE_real]
  generalize ((M_PI : ℚ) : ℝ) = P at hP1 hP2 ⊢
  have hπ1 : (314 / 100 : ℝ) < Real.pi := by have := Real.pi_gt_d2; norm_num at this ⊢; linarith
  have hπ2 : Real.pi < (315 / 100 : ℝ) := by have := Real.pi_lt_d2; norm_num at this ⊢; linarith
  have hP3 : (314 / 100 : ℝ) - 1 / 10 ^ 20 < P := by linarith
  have hP4 : P < 315 / 100 := by linarith
  -- products
  have m1 : 314 / 100 * 261 ≤ Real.pi * fk := mul_le_mul hπ1.le hk0 (by norm_num) (by positivity)
  have m2 : Real.pi * fk ≤ 315 / 100 * 524 :=
    mul_le_mul hπ2.le hk1 (by linarith) (by norm_num)
  have m3 : 313 / 100 * 261 ≤ P * fj :=
    mul_le_mul (by linarith) hj0 (by norm_num) (by linarith)
  have m4 : P * fj ≤ 315 / 100 * 524 := mul_le_mul hP4.le hj1 (by linarith) (by norm_num)
  have m5 : 0 ≤ (Real.pi - P) * fk := mul_nonneg (by linarith) (by linarith)
  have m6 : (Real.pi - P) * fk ≤ 1 / 10 ^ 20 * 524 :=
    mul_le_mul (by linarith) hk1 (by linarith) (by norm_num)
  have m7 : 0 ≤ (Real.pi - P) * fj := mul_nonneg (by linarith) (by linarith)
  have m8 : (Real.pi - P) * fj ≤ 1 / 10 ^ 20 * 524 :=
    mul_le_mul (by linarith) hj1 (by linarith) (by norm_num)
  refine ⟨?_, ?_, ?_, ?_, ?_⟩
  · rw [abs_le]
    constructor
    · have : (0:ℝ) ≤ 2 * Real.pi * fk / 2000 - 2 * P * fk / 2000 := by
        have e : 2 * Real.pi * fk / 2000 - 2 * P * fk / 2000 = (Real.pi - P) * fk / 1000 := by ring
        rw [e]; positivity
      have h7 : (-(1 / 10 ^ 7) : ℝ) ≤ 0 := by norm_num
      linarith
    · have e : 2 * Real.pi * fk / 2000 - 2 * P * fk / 2000 = (Real.pi - P) * fk / 1000 := by ring
      rw [e]
      have : (1 / 10 ^ 20 * 524 : ℝ) / 1000 ≤ 1 / 10 ^ 7 := by norm_num
      linarith
  · intro hgap
    apply cos_le_of_gap
    · -- the angle is at least 0.06 away from 0
      have e : 2 * Real.pi * fk / 2000 - 2 * P * fj / 2000
          = (Real.pi * (fk - fj) + (Real.pi - P) * fj) / 1000 := by ring
      rw [e]
      rcases le_abs'.1 hgap with h | h
      · -- fk - fj ≤ -39/2
        have p1 : Real.pi * (fk - fj) ≤ 314 / 100 * (-(39 / 2)) := by
          have : 314 / 100 * (39 / 2) ≤ Real.pi * (fj - fk) :=
            mul_le_mul hπ1.le (by linarith) (by norm_num) (by positivity)
          linarith
        rw [abs_of_neg (by
          have : Real.pi * (fk - fj) + (Real.pi - P) * fj < 0 := by
            have : (314 / 100 * (-(39 / 2)) : ℝ) + 1 / 10 ^ 20 * 524 < 0 := by norm_num
            linarith
          exact div_neg_of_neg_of_pos this (by norm_num))]
        have : (314 / 100 * (-(39 / 2)) : ℝ) + 1 / 10 ^ 20 * 524 ≤ -(6 / 100 * 1000) := by norm_num
        linarith
      · have p1 : 314 / 100 * (39 / 2) ≤ Real.pi * (fk - fj) :=
          mul_le_mul hπ1.le h (by norm_num) (by positivity)
        rw [abs_of_nonneg (by positivity)]
        have : (6 / 100 * 1000 : ℝ) ≤ 314 / 100 * (39 / 2) := by norm_num
        linarith
    · rw [abs_le]
      constructor <;> linarith
  · apply cos_nonpos_of_band <;> linarith
  · apply cos_le_of_band <;> linarith
  · apply cos_le_of_band <;> linarith


/-- The Goertzel powers of a mean-free sinusoid at its own frequency `fk` and at a
frequency `fj` at least 19.5 Hz away. -/
theorem sinusoid_norms (fk fj A φ c : ℝ) (hA : A ≠ 0)
    (hk0 : 261 ≤ fk) (hk1 : fk ≤ 524) (hj0 : 261 ≤ fj) (hj1 : fj ≤ 524) :
    (39 / 2 ≤ |fk - fj| →
      goertzel Real.cos
        (remove_mean fun n : ℕ =>
          c + A * Real.sin (2 * Real.pi * fk * (n : ℝ) / ((SAMPLE_RATE : ℚ) : ℝ) + φ)) fj
        ≤ (22 * |A|) ^ 2) ∧
    (98 * |A|) ^ 2 ≤ goertzel Real.cos
        (remove_mean fun n : ℕ =>
          c + A * Real.sin (2 * Real.pi * fk * (n : ℝ) / ((SAMPLE_RATE : ℚ) : ℝ) + φ)) fk := by
  have hraw : (fun n : ℕ =>
        c + A * Real.sin (2 * Real.pi * fk * (n : ℝ) / ((SAMPLE_RATE : ℚ) : ℝ) + φ))
      = fun n : ℕ => c + A * Real.sin (2 * Real.pi * fk / 2000 * (n : ℝ) + φ) := by
    funext n
    rw [SAMPLE_RATE_real]
    congr 3
    ring
  rw [hraw, goertzel_real_eq, goertzel_real_eq]
  obtain ⟨a1, _, a3, a4, a5⟩ := key_angles fk fk hk0 hk1 hk0 hk1
  obtain ⟨_, b2, b3, b4, _⟩ := key_angles fk fj hk0 hk1 hj0 hj1
  have hN : ((NUM_SAMPLES : ℕ) : ℝ) = 200 := by simp [NUM_SAMPLES]
  have na : 0 ≤ |A| := abs_nonneg A
  obtain ⟨up, low⟩ := sinusoid_peak_core NUM_SAMPLES hN (2 * Real.pi * fk / 2000)
    (2 * ((M_PI : ℚ) : ℝ) * fk / ((SAMPLE_RATE : ℚ) : ℝ))
    (2 * ((M_PI : ℚ) : ℝ) * fj / ((SAMPLE_RATE : ℚ) : ℝ)) φ A c
    (avg_loop (fun n : ℕ => c + A * Real.sin (2 * Real.pi * fk / 2000 * (n : ℝ) + φ))
      NUM_SAMPLES / (NUM_SAMPLES : ℝ)) hA
    (by rw [hN]; field_simp) a1 a3 a4 a5
  constructor
  · intro hgap
    exact pow_le_pow_left₀ (norm_nonneg _) (up (b2 hgap) b3 b4) 2
  · exact pow_le_pow_left₀ (by positivity) low 2

theorem sinusoid_power_lt (fk fj A φ c : ℝ) (hA : A ≠ 0)
    (hk0 : 261 ≤ fk) (hk1 : fk ≤ 524) (hj0 : 261 ≤ fj) (hj1 : fj ≤ 524)
    (hgap : 39 / 2 ≤ |fk - fj|) :
    goertzel Real.cos
        (remove_mean fun n : ℕ =>
          c + A * Real.sin (2 * Real.pi * fk * (n : ℝ) / ((SAMPLE_RATE : ℚ) : ℝ) + φ)) fj
      < goertzel Real.cos
        (remove_mean fun n : ℕ =>
          c + A * Real.sin (2 * Real.pi * fk * (n : ℝ) / ((SAMPLE_RATE : ℚ) : ℝ) + φ)) fk := by
  have na : 0 < |A| := abs_pos.2 hA
  have hsq : (22 * |A|) ^ 2 < (98 * |A|) ^ 2 :=
    pow_lt_pow_left₀ (by linarith only [na]) (mul_nonneg (by norm_num) na.le) (by norm_num)
  obtain ⟨up, low⟩ := sinusoid_norms fk fj A φ c hA hk0 hk1 hj0 hj1
  exact lt_of_le_of_lt (up hgap) (lt_of_lt_of_le hsq low)

/-- The list of powers built by `detect_window`, entry by entry. -/
theorem key_powers_getD {K : Type} [LinearOrderedField K] (g : K → K) (j : Nat) (hj : j < 8) :
    (keys.map fun k => g (k.freq : K)).getD j 0 = g ((key_freq j : ℚ) : K) := by
  interval_cases j <;> rfl

/-- When one key is strictly the strongest and above the noise floor, it is selected. -/
theorem select_note_of_peak {K : Type} [LinearOrderedField K] (powers : List K) (nf : K)
    (k : Nat) (hk : k < powers.length) (hnf : 0 ≤ nf) (hp : nf < powers.getD k 0)
    (hmax : ∀ j, j < powers.length → j ≠ k → powers.getD j 0 < powers.getD k 0) :
    select_note powers nf = (k : Int) := by
  have h := select_loop_spec powers
  have hs : select_note powers nf =
      if (select_loop powers 0 (0, -1)).1 > nf then (select_loop powers 0 (0, -1)).2
      else -1 := rfl
  generalize (select_loop powers 0 (0, -1)).1 = m at h hs
  generalize (select_loop powers 0 (0, -1)).2 = i at h hs
  rw [hs]
  have hkm := getD_mem powers k hk
  rcases h with ⟨_, h2, h3⟩ | ⟨n, h1, h2, h3, _, h5, _⟩
  · have := h3 _ hkm
    exact absurd (lt_of_le_of_lt hnf hp) (not_lt.2 this)
  · have hle : powers.getD k 0 ≤ m := h5 _ hkm
    have hn : n = k := by
      by_contra hne
      have := hmax n h2 hne
      rw [h3] at this
      exact absurd this (not_lt.2 hle)
    subst hn
    rw [h3] at hp
    rw [if_pos hp, h1]

/-- C15: in exact real arithmetic, for every catalog index k < 8, every amplitude A other
than 0, phase and offset, the window of NUM_SAMPLES samples
c + A sin(2 pi f_k n / SAMPLE_RATE + phase) of a pure sinusoid at the catalog frequency
f_k, after removal of its mean, has a Goertzel power at f_k that strictly exceeds its
Goertzel power at each of the other seven catalog frequencies; when that power exceeds
the noise floor 2.0 the detector returns k. -/
theorem pure_tone_detected (k : Nat) (hk : k < 8) (A φ c : ℝ) (hA : A ≠ 0)
    (hp : ((NOISE_FLOOR : ℚ) : ℝ) <
      goertzel Real.cos
        (remove_mean fun n : ℕ => c + A * Real.sin
          (2 * Real.pi * ((key_freq k : ℚ) : ℝ) * (n : ℝ) / ((SAMPLE_RATE : ℚ) : ℝ) + φ))
        ((key_freq k : ℚ) : ℝ)) :
    (∀ j, j < 8 → j ≠ k →
      goertzel Real.cos
          (remove_mean fun n : ℕ => c + A * Real.sin
            (2 * Real.pi * ((key_freq k : ℚ) : ℝ) * (n : ℝ) / ((SAMPLE_RATE : ℚ) : ℝ) + φ))
          ((key_freq j : ℚ) : ℝ)
        < goertzel Real.cos
          (remove_mean fun n : ℕ => c + A * Real.sin
            (2 * Real.pi * ((key_freq k : ℚ) : ℝ) * (n : ℝ) / ((SAMPLE_RATE : ℚ) : ℝ) + φ))
          ((key_freq k : ℚ) : ℝ)) ∧
    detect_window Real.cos ((NOISE_FLOOR : ℚ) : ℝ)
        (remove_mean fun n : ℕ => c + A * Real.sin
          (2 * Real.pi * ((key_freq k : ℚ) : ℝ) * (n : ℝ) / ((SAMPLE_RATE : ℚ) : ℝ) + φ))
      = (k : Int) := by
  have hlt : ∀ j, j < 8 → j ≠ k →
      goertzel Real.cos
          (remove_mean fun n : ℕ => c + A * Real.sin
            (2 * Real.pi * ((key_freq k : ℚ) : ℝ) * (n : ℝ) / ((SAMPLE_RATE : ℚ) : ℝ) + φ))
          ((key_freq j : ℚ) : ℝ)
        < goertzel Real.cos
          (remove_mean fun n : ℕ => c + A * Real.sin
            (2 * Real.pi * ((key_freq k : ℚ) : ℝ) * (n : ℝ) / ((SAMPLE_RATE : ℚ) : ℝ) + φ))
          ((key_freq k : ℚ) : ℝ) := by
    intro j hj hjk
    obtain ⟨k0, k1, kg⟩ := key_freq_facts k j hk hj
    obtain ⟨j0, j1, _⟩ := key_freq_facts j k hj hk
    have c0 : (261 : ℝ) ≤ ((key_freq k : ℚ) : ℝ) := by exact_mod_cast k0
    have c1 : ((key_freq k : ℚ) : ℝ) ≤ 524 := by exact_mod_cast k1
    have d0 : (261 : ℝ) ≤ ((key_freq j : ℚ) : ℝ) := by exact_mod_cast j0
    have d1 : ((key_freq j : ℚ) : ℝ) ≤ 524 := by exact_mod_cast j1
    have g : (39 / 2 : ℝ) ≤ |((key_freq k : ℚ) : ℝ) - ((key_freq j : ℚ) : ℝ)| := by
      have h2 : ((39 / 2 : ℚ) : ℝ) ≤ ((|key_freq k - key_freq j| : ℚ) : ℝ) :=
        Rat.cast_le.2 (kg (fun h => hjk h.symm))
      rw [Rat.cast_abs, Rat.cast_sub] at h2
      norm_num at h2
      exact h2
    exact sinusoid_power_lt _ _ A φ c hA c0 c1 d0 d1 g
  refine ⟨hlt, ?_⟩
  unfold detect_window
  apply select_note_of_peak _ _ k (by simpa [keys] using hk)
  · unfold NOISE_FLOOR; norm_num
  · rw [key_powers_getD _ k hk]; exact hp
  · intro j hj hjk
    have hj8 : j < 8 := by simpa [keys] using hj
    rw [key_powers_getD _ j hj8, key_powers_getD _ k hk]
    exact hlt j hj8 hjk

/-- Witness of C15: the sinusoid of amplitude 0.4 around 0.5 at G4 (index 4, 392 Hz) with
phase 0; its power at 392 Hz is at least (98 * 0.4)^2, above the noise floor. -/
theorem pure_tone_detected_witness :
    detect_window Real.cos ((NOISE_FLOOR : ℚ) : ℝ)
        (remove_mean fun n : ℕ => 1 / 2 + 2 / 5 * Real.sin
          (2 * Real.pi * ((key_freq 4 : ℚ) : ℝ) * (n : ℝ) / ((SAMPLE_RATE : ℚ) : ℝ) + 0))
      = ((4 : ℕ) : Int) :=
  (pure_tone_detected 4 (by decide) (2 / 5) 0 (1 / 2) (by norm_num)
    (by
      have c0 : (261 : ℝ) ≤ ((key_freq 4 : ℚ) : ℝ) := by
        exact_mod_cast (key_freq_facts 4 4 (by decide) (by decide)).1
      have c1 : ((key_freq 4 : ℚ) : ℝ) ≤ 524 := by
        exact_mod_cast (key_freq_facts 4 4 (by decide) (by decide)).2.1
      have hA : (2 / 5 : ℝ) ≠ 0 := by norm_num
      have low := (sinusoid_norms _ _ (2 / 5) 0 (1 / 2) hA c0 c1 c0 c1).2
      have e : ((NOISE_FLOOR : ℚ) : ℝ) < (98 * |(2 / 5 : ℝ)|) ^ 2 := by
        unfold NOISE_FLOOR
        rw [abs_of_pos (by norm_num : (0 : ℝ) < 2 / 5)]
        norm_num
      exact lt_of_lt_of_le e low)).2

end KeyTrainer
